import Mathlib

/-!
Verification development for pyrometer's core components:
literal ingestion (`crates/solc-expressions/src/literal.rs`),
assignment (`crates/solc-expressions/src/assign.rs`),
loop widening (`crates/solc-expressions/src/loops.rs`) and the
bound-history reporter (`src/context/bounds_analyzer.rs`).

Machine integers (`U256`, `I256`) are modelled as `Nat`/`Int` with explicit
`% 2 ^ 256` where the Rust code performs wrapping arithmetic.  Fallible Rust
functions returning `Result<_, ExprErr>` are modelled with `Except String _`
(error messages abbreviate the Rust format strings).  Graph side effects
(`add_node`, `add_var`, `push_expr`, `add_edge`) are modelled by explicit
state records.
-/

deriving instance DecidableEq for Except

set_option maxRecDepth 40000

namespace Pyrometer

/-- `Concrete` values (spec section 3): exact literal values.  Mirrors the
graph crate's `Concrete` enum as consumed by `literal.rs`:
`Uint(width, val)`, `Int(width, val)`, `Bytes(len, 32-byte buffer)`,
`DynBytes`, `Address`, `Bool`, `String`. -/
inductive Concrete where
  | uint (width : Nat) (val : Nat)
  | int (width : Nat) (val : Int)
  | bytes (len : Nat) (buf : List Nat)
  | dynBytes (bs : List Nat)
  | addr (bs : List Nat)
  | boolC (b : Bool)
  | strC (s : String)
deriving DecidableEq

/-- One decimal digit of a `Char`, as in `U256::from_str_radix(_, 10)`. -/
def decDigit? (c : Char) : Option Nat :=
  if c.isDigit then some (c.toNat - 48) else none

/-- Accumulating decimal parse over the characters of the input. -/
def parseDecCore : List Char → Nat → Option Nat
  | [], acc => some acc
  | c :: cs, acc =>
    match decDigit? c with
    | some d => parseDecCore cs (acc * 10 + d)
    | none => none

/-- `U256::from_str_radix(s, 10)`: digits only, nonempty, value below
`2 ^ 256` (larger inputs are a parse error in ruint). -/
def u256FromStr (s : String) : Option Nat :=
  if s.data.isEmpty then none
  else
    match parseDecCore s.data 0 with
    | some v => if v < 2 ^ 256 then some v else none
    | none => none

/-- Bit length of a natural number, by explicit recursion on a step budget
so that it evaluates inside the kernel; `bitLenCore fuel n` is the bit
length of `n` whenever `n < 2 ^ fuel`. -/
def bitLenCore : Nat → Nat → Nat
  | 0, _ => 0
  | fuel + 1, n => if n = 0 then 0 else bitLenCore fuel (n / 2) + 1

/-- Bit length of a `U256` value. -/
def bitLen (n : Nat) : Nat := bitLenCore 256 n

/-- `val.leading_zeros()` of a `U256`. -/
def leadingZeros (v : Nat) : Nat := 256 - bitLen v

/-- The width computation of `concrete_number_from_str` (literal.rs line 45):
`((32 - (val.leading_zeros() / 8)) * 8).max(8)`. -/
def litSize (v : Nat) : Nat := max ((32 - leadingZeros v / 8) * 8) 8

/-- `unit_to_uint` (literal.rs lines 87-97). -/
def unitToUint (unit : String) : Nat :=
  if unit = "gwei" then 10 ^ 9
  else if unit = "ether" then 10 ^ 18
  else if unit = "minutes" then 60
  else if unit = "hours" then 3600
  else if unit = "days" then 86400
  else if unit = "weeks" then 604800
  else 1

/-- `I256::from_raw`: reinterpret a `U256` bit pattern as two's-complement. -/
def i256FromRaw (v : Nat) : Int :=
  if v < 2 ^ 255 then (v : Int) else (v : Int) - 2 ^ 256

/-- `Literal::concrete_number_from_str` (literal.rs lines 17-64).
Multiplications by `10 ^ exp` and by the unit are wrapping `U256`
arithmetic, modelled with `% 2 ^ 256`. -/
def concreteNumberFromStr (integer exponent : String) (negative : Bool)
    (unit : Option String) : Except String Concrete :=
  match u256FromStr integer with
  | none => .error "is too large, it does not fit into a uint256"
  | some int =>
    match (if exponent.data.isEmpty then some int
           else match u256FromStr exponent with
                | some exp => some (int * (10 ^ exp % 2 ^ 256) % 2 ^ 256)
                | none => none) with
    | none => .error "exponent parse error"
    | some val0 =>
      let val :=
        match unit with
        | some u => val0 * unitToUint u % 2 ^ 256
        | none => val0
      let size := litSize val
      if negative then
        if val = 2 ^ 255 then
          -- no need to set upper bit
          .ok (.int size (i256FromRaw val))
        else
          let raw := i256FromRaw val
          if raw < 0 then .error "Negative value cannot fit into int256"
          else .ok (.int size (-1 * raw))
      else .ok (.uint size val)

/-- The per-context state touched by literal ingestion: the registered
read-only `ContextVar`s (holding their concrete) and the expression-result
stack. -/
structure LitCtx where
  vars : List Concrete
  stack : List Nat
deriving DecidableEq

/-- `ExprRet::SingleLiteral(node)` pushes are recorded as the node index on
`LitCtx.stack`. -/
def pushSingleLiteral (ctx : LitCtx) (conc : Concrete) : LitCtx :=
  { vars := ctx.vars ++ [conc], stack := ctx.stack ++ [ctx.vars.length] }

/-- `Literal::number_literal` (literal.rs lines 65-85): build the concrete,
register a fresh variable and push a single-literal `ExprRet`; an error in
`concrete_number_from_str` propagates before any mutation. -/
def numberLiteral (ctx : LitCtx) (integer exponent : String) (negative : Bool)
    (unit : Option String) : LitCtx × Except String Unit :=
  match concreteNumberFromStr integer exponent negative unit with
  | .error e => (ctx, .error e)
  | .ok conc => (pushSingleLiteral ctx conc, .ok ())

/-- Symbolic bound expression over `Concrete` leaves (spec section 3
`Elem`); only the constructors exercised by `literal.rs` and `assign.rs`
are modelled. -/
inductive Elem where
  | econst (c : Nat)
  | eref (v : Nat)
  | eadd (a b : Elem)
  | emul (a b : Elem)
  | emax (a b : Elem)
  | ecast (a b : Elem)
deriving DecidableEq

/-- Modelled from the spec: `maximize` on an `Elem` built purely from
`Concrete` leaves resolves it with exact arithmetic (spec sections 4.1 and
4.3); the graph crate implementation is not under src/.  Reference and cast
nodes do not occur in the constant trees built by
`rational_number_literal`. -/
def maximizeConst : Elem → Option Nat
  | .econst c => some c
  | .eadd a b =>
    match maximizeConst a, maximizeConst b with
    | some x, some y => some (x + y)
    | _, _ => none
  | .emul a b =>
    match maximizeConst a, maximizeConst b with
    | some x, some y => some (x * y)
    | _, _ => none
  | .emax a b =>
    match maximizeConst a, maximizeConst b with
    | some x, some y => some (max x y)
    | _, _ => none
  | _ => none

/-- Modelled from the spec: `Concrete::fit_size` shrinks a value to the
minimal 8-bit-aligned width (spec section 3 invariant); the graph crate
implementation is not under src/. -/
def fitSize (v : Nat) : Concrete := .uint (litSize v) v

/-- Bits needed to represent `v` as a signed two's-complement value. -/
def signedBits (v : Int) : Nat :=
  if 0 ≤ v then Nat.size v.natAbs + 1 else Nat.size (v.natAbs - 1) + 1

/-- Modelled from the spec: `fit_size` on a negative value, minimal
8-bit-aligned signed width (spec section 3 invariant). -/
def fitSizeInt (v : Int) : Concrete :=
  .int (max 8 ((signedBits v + 7) / 8 * 8)) v

/-- `Literal::rational_number_literal` (literal.rs lines 100-193).
`fraction_denom = 10 ^ fraction.len()` and `rhs_power_res = 10 ^ exp * unit`
are wrapping `U256` arithmetic; the `Elem` tree over constants is evaluated
by `maximize` (exact, see `maximizeConst`).  The division
`rhs_power_res /= fraction_denom` is `U256` integer (flooring) division. -/
def rationalNumberLiteral (ctx : LitCtx) (integer fraction exponent : String)
    (unit : Option String) (negative : Bool) : LitCtx × Except String Unit :=
  match u256FromStr integer with
  | none => (ctx, .error "integer parse error")
  | some int =>
  match (if exponent.data.isEmpty then some 0 else u256FromStr exponent) with
  | none => (ctx, .error "exponent parse error")
  | some exp =>
  let fractionLen := fraction.data.length
  let fractionDenom := 10 ^ fractionLen % 2 ^ 256
  match u256FromStr fraction with
  | none => (ctx, .error "fraction parse error")
  | some fractionV =>
  let unitNum :=
    match unit with
    | some u => unitToUint u
    | none => 1
  let intElem := Elem.emax (.econst int) (.econst 1)
  let rationalRange0 := Elem.emul intElem (.econst fractionDenom)
  let rationalRange1 := Elem.eadd rationalRange0 (.econst fractionV)
  let rhsPowerRes := (10 ^ exp % 2 ^ 256) * unitNum % 2 ^ 256
  if fractionV > rhsPowerRes then
    (ctx, .error "Invalid rational number: fraction part has more precision than exponent and unit provide")
  else
    let rhsPowerRes2 := rhsPowerRes / fractionDenom
    let rationalRange := Elem.emul rationalRange1 (.econst rhsPowerRes2)
    match maximizeConst rationalRange with
    | none => (ctx, .error "maybe_concrete unwrap")
    | some v =>
      if negative then
        if v > 2 ^ 255 then (ctx, .error "Negative value cannot fit into int256")
        else (pushSingleLiteral ctx (fitSizeInt (-(v : Int))), .ok ())
      else (pushSingleLiteral ctx (fitSize v), .ok ())

/-- One hex digit of a `Char`. -/
def hexDigit? (c : Char) : Option Nat :=
  if '0' ≤ c ∧ c ≤ '9' then some (c.toNat - 48)
  else if 'a' ≤ c ∧ c ≤ 'f' then some (c.toNat - 87)
  else if 'A' ≤ c ∧ c ≤ 'F' then some (c.toNat - 55)
  else none

/-- `hex::decode`: pairs of hex digits; fails on an odd number of digits or
any non-hex character. -/
def hexDecodeCore : List Char → Option (List Nat)
  | [] => some []
  | [_] => none
  | c1 :: c2 :: rest =>
    match hexDigit? c1, hexDigit? c2, hexDecodeCore rest with
    | some h, some l, some bs => some ((h * 16 + l) :: bs)
    | _, _, _ => none

/-- `hex::decode` on a string. -/
def hexDecode (s : String) : Option (List Nat) := hexDecodeCore s.data

/-- The `max` accumulator of the `hex_literals` loop (literal.rs lines
242-247): after the loop, `max` is the index of the last non-zero byte plus
one (0 if all bytes are zero). -/
def hexMaxCore : List Nat → Nat → Nat → Nat
  | [], _, m => m
  | b :: bs, i, m => hexMaxCore bs (i + 1) (if b ≠ 0 then i + 1 else m)

/-- Logical length computed by the `hex_literals` loop. -/
def hexMax (h : List Nat) : Nat := hexMaxCore h 0 0

/-- The 32-byte `B256` buffer written by the `hex_literals` loop: decoded
bytes in place, zero elsewhere. -/
def hexTarget (h : List Nat) : List Nat :=
  (List.range 32).map (fun i => h.getD i 0)

/-- `Literal::hex_literals` (literal.rs lines 233-263): a failed
`hex::decode` leaves `h` empty; decoded length at most 32 becomes
`Concrete::Bytes(max, target)`, longer input becomes
`Concrete::DynBytes`.  Always registers a variable and pushes a
single-literal `ExprRet` (never an error). -/
def hexLiterals (ctx : LitCtx) (hexStr : String) : LitCtx × Except String Unit :=
  let h :=
    match hexDecode hexStr with
    | some bs => bs
    | none => []
  let conc :=
    if h.length ≤ 32 then Concrete.bytes (hexMax h) (hexTarget h)
    else Concrete.dynBytes h
  (pushSingleLiteral ctx conc, .ok ())

/-- `Address::from_str`: optional `0x` prefix, then exactly 20 hex-decoded
bytes; anything else is a parse error. -/
def addressFromStr (s : String) : Option (List Nat) :=
  let t :=
    match s.data with
    | '0' :: 'x' :: rest => rest
    | other => other
  match hexDecodeCore t with
  | some bs => if bs.length = 20 then some bs else none
  | none => none

/-- `Literal::address_literal` (literal.rs lines 265-278): malformed text is
a parse error and mutates nothing. -/
def addressLiteral (ctx : LitCtx) (addrStr : String) : LitCtx × Except String Unit :=
  match addressFromStr addrStr with
  | none => (ctx, .error "address parse error")
  | some bs =>
    (pushSingleLiteral ctx (Concrete.addr bs), .ok ())

/-! ### Bound-history reporter (`src/context/bounds_analyzer.rs`) -/

/-- One version of a variable as seen by the bound reporter: its source
location and its optional `Range` (modelled as a min/max pair of `Elem`s;
the walk only compares ranges for equality). -/
structure BVersion where
  loc : Nat
  rng : Option (Elem × Elem)
deriving DecidableEq

/-- The result record built by `bounds_for_var_node`. -/
structure BoundAnalysis where
  varDef : Nat × Option (Elem × Elem)
  boundChanges : List (Nat × (Elem × Elem))
deriving DecidableEq

/-- The `while let Some(next) = curr.next_version` walk of
`bounds_for_var_node` (bounds_analyzer.rs lines 146-159): a version with a
range different from the running range is recorded; versions without a
range are skipped and do not update the running range. -/
def boundWalk : Elem × Elem → List BVersion → List (Nat × (Elem × Elem))
  | _, [] => []
  | currRange, next :: rest =>
    match next.rng with
    | some nextRange =>
      (if nextRange ≠ currRange then [(next.loc, nextRange)] else []) ++
        boundWalk nextRange rest
    | none => boundWalk currRange rest

/-- `BoundAnalyzer::bounds_for_var_node` (bounds_analyzer.rs lines
133-163); the version chain reachable through `next_version` links is
passed as the list `nexts`.  If the first version has no range, no walk
happens at all. -/
def boundsForVarNode (cvar : BVersion) (nexts : List BVersion) : BoundAnalysis :=
  { varDef := (cvar.loc, cvar.rng),
    boundChanges :=
      match cvar.rng with
      | some r => boundWalk r nexts
      | none => [] }

/-- The claim's specification of the bound-history walk, written from the
spec's words: record exactly those versions whose Range differs from the
Range of the immediately preceding version, in chain order. -/
def specBoundChanges : Elem × Elem → List (Nat × (Elem × Elem)) → List (Nat × (Elem × Elem))
  | _, [] => []
  | prev, (l, r) :: rest =>
    (if r ≠ prev then [(l, r)] else []) ++ specBoundChanges r rest

/-! ### Loop widening (`crates/solc-expressions/src/loops.rs`) -/

/-- Declared types as consumed by the widening pass; `default_range` is
total on unsigned integer types and absent on `otherT`. -/
inductive WTy where
  | uintT (bits : Nat)
  | otherT
deriving DecidableEq

/-- Modelled from the spec: a declared type's full default-domain Range
(spec sections 4.5 and 6): unsigned N-bit maps to `[0, 2 ^ N - 1]`; the
graph crate's `default_range` is not under src/. -/
def defaultRange : WTy → Option (Nat × Nat)
  | .uintT n => some (0, 2 ^ n - 1)
  | .otherT => none

/-- A variable with its version chain as seen by the widening pass; each
version holds its (min, max) range components, set separately by
`set_range_min` / `set_range_max`. -/
structure WVar where
  name : String
  ty : WTy
  versions : List (Option Nat × Option Nat)
deriving DecidableEq

/-- One execution-path context: local variables, parent link, and whether
it is the function-return style successor created after widening. -/
structure WCtx where
  vars : List WVar
  parent : Option Nat
  isFnRet : Bool
deriving DecidableEq

/-- The context tree. -/
structure WState where
  ctxs : List WCtx
deriving DecidableEq

/-- `ctx.var_by_name`: look up a local variable, falling back to the parent
context for names not locally declared (spec section 4.2). -/
def varByName : Nat → WState → Nat → String → Option WVar
  | 0, _, _, _ => none
  | fuel + 1, st, cid, n =>
    match st.ctxs[cid]? with
    | none => none
    | some c =>
      match c.vars.find? (fun v => v.name == n) with
      | some v => some v
      | none =>
        match c.parent with
        | some p => varByName fuel st p n
        | none => none

/-- `advance_var_in_ctx` on a `WVar`: mint a new version with no Range yet
(spec section 4.2). -/
def advanceW (v : WVar) : WVar := { v with versions := v.versions ++ [(none, none)] }

/-- `set_range_min` on the latest version. -/
def setMinW (v : WVar) (m : Nat) : WVar :=
  { v with
    versions :=
      v.versions.set (v.versions.length - 1)
        (some m, (v.versions.getD (v.versions.length - 1) (none, none)).2) }

/-- `set_range_max` on the latest version. -/
def setMaxW (v : WVar) (m : Nat) : WVar :=
  { v with
    versions :=
      v.versions.set (v.versions.length - 1)
        ((v.versions.getD (v.versions.length - 1) (none, none)).1,
         some m) }

/-- Advancing a variable from within context `cid`: if the name is locally
declared the local chain is extended, otherwise the parent's variable is
copied into the child and extended there (spec section 4.2: a parent is
never mutated by a descendant). -/
def advanceVarInCtxW (st : WState) (cid : Nat) (n : String) (f : WVar → WVar) : WState :=
  match st.ctxs[cid]? with
  | none => st
  | some c =>
    match c.vars.find? (fun v => v.name == n) with
    | some _ =>
      { ctxs := st.ctxs.set cid
          { c with vars := c.vars.map (fun v => if v.name == n then f v else v) } }
    | none =>
      match varByName st.ctxs.length st cid n with
      | some pv => { ctxs := st.ctxs.set cid { c with vars := c.vars ++ [f pv] } }
      | none => st

/-- The widening step of the `reset_vars` closure for one child-declared
variable (loops.rs lines 41-65): if `var_by_name` finds an inheritor and
the declared type has a default range, advance the variable and set its
range min and max to the full default domain. -/
def widenStep (subId : Nat) (st : WState) (v : WVar) : WState :=
  match varByName st.ctxs.length st subId v.name with
  | none => st
  | some _ =>
    match defaultRange v.ty with
    | none => st
    | some r => advanceVarInCtxW st subId v.name (fun w => setMaxW (setMinW (advanceW w) r.1) r.2)

/-- The effect of one widening step on a single variable record: the
variable whose name matches the processed child variable is advanced and
widened to the declared type's full default domain. -/
def gStep (p : WVar) (w : WVar) : WVar :=
  if w.name == p.name then
    match defaultRange p.ty with
    | some r => setMaxW (setMinW (advanceW w) r.1) r.2
    | none => w
  else w

/-- The pointwise effect of the whole widening fold on the loop-body
context's variable list. -/
def widenAll (process : List WVar) (vars : List WVar) : List WVar :=
  process.foldl (fun acc p => acc.map (gStep p)) vars

/-- `Looper::reset_vars` (loops.rs lines 25-71): fork a loop-body child
context, evaluate the body exactly once in it (the single-pass result is
the child's local variables `bodyVars`, produced externally by
`traverse_statement`/`interpret`), widen every child-declared variable to
its type's full default domain, and open a fresh function-return style
successor context. -/
def resetVars (st : WState) (cid : Nat) (bodyVars : List WVar) : WState :=
  let subId := st.ctxs.length
  let st1 : WState :=
    { ctxs := st.ctxs ++ [{ vars := bodyVars, parent := some cid, isFnRet := false }] }
  let st2 := bodyVars.foldl (widenStep subId) st1
  { ctxs := st2.ctxs ++ [{ vars := [], parent := some subId, isFnRet := true }] }

/-! ### Assignment engine (`crates/solc-expressions/src/assign.rs`)

Variables live in a store indexed by node id; `advance` mints new ids at
the end of the store, mirroring graph-node allocation.  Fields that
`assign` reads or writes (`tmp_of`, `dep_on`, storage/return flags, the
declared type for `ty_eq`/`cast_from`, struct fields) are explicit record
fields. -/

/-- One `ContextVar` graph node as consumed by `assign`. -/
structure AVar where
  name : String
  isStructV : Bool
  fields : List Nat
  tyId : Nat
  rmin : Option Elem
  rmax : Option Elem
  excl : List Nat
  next : Option Nat
  tmpOf : Option Nat
  depOn : Option (List Nat)
  isStorage : Bool
  isReturn : Bool
  hasCtx : Bool
  extCall : Bool
deriving DecidableEq

/-- Graph edges added by `assign`. -/
inductive AEdge where
  | storageWrite (src dst : Nat)
  | returnAssign (src dst : Nat) (ext : Bool)
deriving DecidableEq

/-- The variable/edge store (the graph as touched by `assign`). -/
structure AStore where
  vars : List AVar
  edges : List AEdge
deriving DecidableEq

/-- Node lookup. -/
def getVar (st : AStore) (i : Nat) : Option AVar := st.vars[i]?

/-- Node in-place update. -/
def setVar (st : AStore) (i : Nat) (v : AVar) : AStore :=
  { st with vars := st.vars.set i v }

/-- In-place update through a function (no-op on a missing node). -/
def modifyVar (st : AStore) (i : Nat) (f : AVar → AVar) : AStore :=
  match getVar st i with
  | some v => setVar st i (f v)
  | none => st

/-- Follow `next`-version links; the chain in a well-formed store is
acyclic, so `vars.length + 1` steps always reach the end. -/
def latestVersionCore : Nat → AStore → Nat → Nat
  | 0, _, i => i
  | fuel + 1, st, i =>
    match getVar st i with
    | some v =>
      match v.next with
      | some j => latestVersionCore fuel st j
      | none => i
    | none => i

/-- `latest_version_or_inherited_in_ctx` of a variable node. -/
def latestVersion (st : AStore) (i : Nat) : Nat :=
  latestVersionCore (st.vars.length + 1) st i

/-- Modelled from the spec: `depends_on(var, visited)` is the transitive
reference test on bound expressions, guarded by an explicit visited set to
prevent infinite recursion on self-referential bounds (spec section 4.1);
the graph crate implementation is not under src/.  A reference matches the
target directly or through the referenced variable's current range
elements; the fuel argument only bounds the recursion depth. -/
def dependsOn : Nat → AStore → Elem → Nat → List Nat → Bool
  | 0, _, _, _, _ => false
  | fuel + 1, st, e, target, visited =>
    match e with
    | .econst _ => false
    | .eadd a b => dependsOn fuel st a target visited || dependsOn fuel st b target visited
    | .emul a b => dependsOn fuel st a target visited || dependsOn fuel st b target visited
    | .emax a b => dependsOn fuel st a target visited || dependsOn fuel st b target visited
    | .ecast a b => dependsOn fuel st a target visited || dependsOn fuel st b target visited
    | .eref v =>
      if v = target then true
      else if visited.contains v then false
      else
        match getVar st v with
        | none => false
        | some cv =>
          (match cv.rmin with
           | some m => dependsOn fuel st m target (v :: visited)
           | none => false) ||
          (match cv.rmax with
           | some m => dependsOn fuel st m target (v :: visited)
           | none => false)

/-- Recursion budget for `dependsOn`. -/
def depFuel (st : AStore) : Nat := 4 * st.vars.length + 8

/-- Modelled from the spec (section 4.2): `advance_var_in_ctx` mints a new
version that copies type and flags, starts with no Range, and links the
superseded version to it as previous/next; the implementation
(variable.rs) is not under src/.  The new node id is the next free store
index. -/
def advanceVar (st : AStore) (i : Nat) : AStore × Nat :=
  match getVar st i with
  | none => (st, i)
  | some v =>
    let newId := st.vars.length
    let nv : AVar := { v with rmin := none, rmax := none, excl := [], next := none }
    ({ st with vars := (st.vars.set i { v with next := some newId }) ++ [nv] }, newId)

/-- `advance_var_in_ctx`. -/
def advanceVarInCtx (st : AStore) (i : Nat) : AStore × Nat := advanceVar st i

/-- `advance_var_in_ctx_forcible` with `force = true` always mints a new
version even when reuse would be legal (spec section 4.2). -/
def advanceVarInCtxForcible (st : AStore) (i : Nat) (_force : Bool) : AStore × Nat :=
  advanceVar st i

/-- Modelled from the spec (section 4.4 step 2): `cast_from` reinterprets
the right operand's value domain into the left operand's declared domain;
the graph crate implementation is not under src/.  Modelled as retyping
the right operand's latest version. -/
def castFrom (st : AStore) (rhsId lhsId : Nat) : AStore :=
  match getVar st lhsId with
  | none => st
  | some lv =>
    match getVar st (latestVersion st rhsId) with
    | none => st
    | some v =>
      if v.tyId = lv.tyId then st
      else setVar st (latestVersion st rhsId) { v with tyId := lv.tyId }

/-- `lhs_cvar.ty_eq(&rhs_cvar)`. -/
def tyEq (st : AStore) (a b : Nat) : Bool :=
  match getVar st a, getVar st b with
  | some va, some vb => va.tyId == vb.tyId
  | _, _ => false

/-- `try_set_range_min`: a fallible Range-setting operation; the Boolean
outcome models graph failures external to this component (spec section 7),
and the caller discards it (`let _ = ...`). -/
def trySetRangeMin (ok : Bool) (st : AStore) (i : Nat) (e : Elem) : AStore :=
  if ok then modifyVar st i (fun v => { v with rmin := some e }) else st

/-- `try_set_range_max`, as `trySetRangeMin`. -/
def trySetRangeMax (ok : Bool) (st : AStore) (i : Nat) (e : Elem) : AStore :=
  if ok then modifyVar st i (fun v => { v with rmax := some e }) else st

/-- `try_set_range_exclusions`, as `trySetRangeMin`. -/
def trySetRangeExclusions (ok : Bool) (st : AStore) (i : Nat) (xs : List Nat) : AStore :=
  if ok then modifyVar st i (fun v => { v with excl := xs }) else st

/-- The self-reference test of `assign` (assign.rs lines 153-158): does
either provisional bound — both are the right operand's latest version —
transitively depend on the pre-assignment left variable, starting from an
empty visited set. -/
def needsForcible (st : AStore) (lhsId rhsId : Nat) : Bool :=
  dependsOn (depFuel st) st (.eref (latestVersion st rhsId)) lhsId [] ||
  dependsOn (depFuel st) st (.eref (latestVersion st rhsId)) lhsId []

/-- Structural (tree-level) occurrence of a direct reference to a variable
inside a bound expression, without following references. -/
def elemMentions : Elem → Nat → Bool
  | .econst _, _ => false
  | .eref v, t => v == t
  | .eadd a b, t => elemMentions a t || elemMentions b t
  | .emul a b, t => elemMentions a t || elemMentions b t
  | .emax a b, t => elemMentions a t || elemMentions b t
  | .ecast a b, t => elemMentions a t || elemMentions b t

/-- `rhs_cvar.ref_range`: the exclusions of the right operand's range, when
it has one. -/
def refRangeExcl (st : AStore) (i : Nat) : Option (List Nat) :=
  match getVar st i with
  | some v => if v.rmin.isSome || v.rmax.isSome then some v.excl else none
  | none => none

/-- Rust `str::split('.')` on the characters of a name. -/
def splitDotCore : List Char → List Char → List (List Char)
  | [], acc => [acc.reverse]
  | c :: cs, acc =>
    if c = '.' then acc.reverse :: splitDotCore cs []
    else splitDotCore cs (c :: acc)

/-- The trailing segment of a dotted field name
(`name.split('.').last()`); `split` always yields at least one segment, so
this is `none` for no input. -/
def trailingName (s : String) : Option (List Char) :=
  (splitDotCore s.data []).getLast?

/-- The value `assign` returns (`ExprRet::Single`). -/
inductive ARet where
  | single (i : Nat)
deriving DecidableEq

/-- Modelled from the spec (section 7): the fallible Range-setting
operations can fail for graph reasons external to this component; this
record supplies each operation's outcome for one scalar assignment. -/
structure AssignFlags where
  setMinOk : Bool
  setMaxOk : Bool
  setExclOk : Bool
deriving DecidableEq

/-- assign.rs lines 175-176: `new_lhs.tmp_of = rhs_cvar.tmp_of`. -/
def setTmpOf (st : AStore) (newLhs : Nat) (rv : AVar) : AStore :=
  modifyVar st newLhs (fun v => { v with tmpOf := rv.tmpOf })

/-- assign.rs lines 178-182: append the right operand to (or initialize)
the new left version's dependency list (`set_dependent_on` is modelled
from spec section 4.4 step 5 as initializing with the right operand). -/
def setDepOn (st : AStore) (newLhs rhsId : Nat) : AStore :=
  modifyVar st newLhs (fun v =>
    match v.depOn with
    | some l => { v with depOn := some (l ++ [rhsId]) }
    | none => { v with depOn := some [rhsId] })

/-- assign.rs lines 184-186: record a storage-write relation when the left
variable is storage-backed. -/
def addStorageEdge (st : AStore) (newLhs rhsId : Nat) (lv : AVar) : AStore :=
  if lv.isStorage then
    { st with edges := st.edges ++ [AEdge.storageWrite newLhs rhsId] }
  else st

/-- assign.rs lines 188-209: record a return-assignment relation for a
return-valued right operand; a return value without an owning context is
the detached-variable invariant violation. -/
def returnCheck (st : AStore) (newLhs rhsId : Nat) (rv : AVar) : Except String AStore :=
  if rv.isReturn then
    if rv.hasCtx then
      .ok { st with edges := st.edges ++ [AEdge.returnAssign rhsId newLhs rv.extCall] }
    else .error "No context for variable"
  else .ok st

/-- assign.rs lines 211-246: attach both bound expressions to the new left
version, casting them into the left's declared domain when the declared
types differ; a missing left range in that case is the fatal
"No range during cast?" error.  Both `try_set` results are discarded. -/
def setBounds (fl : AssignFlags) (st : AStore) (newLhs lhsId rhsId : Nat)
    (lb ub : Elem) : Except String AStore :=
  if tyEq st lhsId rhsId then
    .ok (trySetRangeMax fl.setMaxOk (trySetRangeMin fl.setMinOk st newLhs lb) newLhs ub)
  else
    match (getVar st lhsId).bind AVar.rmin, (getVar st lhsId).bind AVar.rmax with
    | some castToMin, some castToMax =>
      .ok (trySetRangeMax fl.setMaxOk
            (trySetRangeMin fl.setMinOk st newLhs (.ecast lb castToMin))
            newLhs (.ecast ub castToMax))
    | _, _ => .error "No range during cast?"

/-- assign.rs lines 247-252: copy forward the right operand's excluded
values, discarding a failure. -/
def copyExclusions (fl : AssignFlags) (st : AStore) (newLhs rhsId : Nat) : AStore :=
  match refRangeExcl st rhsId with
  | some xs => trySetRangeExclusions fl.setExclOk st newLhs xs
  | none => st

/-- The scalar (non-struct) path of `Assign::assign` (assign.rs lines
144-262): cast the right operand, build both provisional bounds from its
latest version, test self-reference to choose forcible or plain advance of
the left variable, copy `tmp_of`, extend the dependency list, record
storage-write and return-assign edges, attach the bounds, copy the
exclusions, force-advance the right operand, and return the new left
version. -/
def assignScalar (fl : AssignFlags) (st0 : AStore) (lhsId rhsId : Nat)
    (lv rv : AVar) : AStore × Except String ARet :=
  let st1 := castFrom st0 rhsId lhsId
  let newLowerBound : Elem := .eref (latestVersion st1 rhsId)
  let newUpperBound : Elem := .eref (latestVersion st1 rhsId)
  let adv :=
    if needsForcible st1 lhsId rhsId then
      advanceVarInCtxForcible st1 (latestVersion st1 lhsId) true
    else advanceVarInCtx st1 (latestVersion st1 lhsId)
  let st2 := adv.1
  let newLhs := adv.2
  let st5 := addStorageEdge (setDepOn (setTmpOf st2 newLhs rv) newLhs rhsId) newLhs rhsId lv
  match returnCheck st5 newLhs rhsId rv with
  | .error e => (st5, .error e)
  | .ok st6 =>
    match setBounds fl st6 newLhs lhsId rhsId newLowerBound newUpperBound with
    | .error e => (st6, .error e)
    | .ok st7 =>
      let st8 := copyExclusions fl st7 newLhs rhsId
      let st9 := (advanceVarInCtxForcible st8 (latestVersion st8 rhsId) true).1
      (st9, .ok (.single newLhs))

mutual

/-- `Assign::assign` (assign.rs lines 87-262).  When both sides are
struct-typed, fields are matched pairwise by trailing name and assigned
recursively, and the struct variable itself is returned unchanged;
otherwise the scalar path runs.  The fuel only bounds struct-field
recursion depth. -/
def assign (fl : AssignFlags) (fuel : Nat) (st : AStore) (lhsId rhsId : Nat) :
    AStore × Except String ARet :=
  match fuel with
  | 0 => (st, .error "recursion fuel exhausted")
  | fuel + 1 =>
    match getVar st lhsId, getVar st rhsId with
    | some lv, some rv =>
      if lv.isStructV && rv.isStructV then
        match assignStructFields fl fuel st lv.fields rv.fields with
        | (st', .ok _) => (st', .ok (.single lhsId))
        | (st', .error e) => (st', .error e)
      else assignScalar fl st lhsId rhsId lv rv
    | _, _ => (st, .error "missing variable node")
termination_by structural fuel

/-- The `lhs_fields.iter().try_for_each` loop of the struct branch
(assign.rs lines 106-140): each left field looks for a right field with
the same trailing name; a left field without one fails with the
"Struct types mismatched" parse error, short-circuiting the loop. -/
def assignStructFields (fl : AssignFlags) (fuel : Nat) (st : AStore)
    (lhsFields rhsFields : List Nat) : AStore × Except String Unit :=
  match fuel with
  | 0 => (st, .error "recursion fuel exhausted")
  | fuel + 1 =>
    match lhsFields with
    | [] => (st, .ok ())
    | lf :: rest =>
      match getVar st lf with
      | none => (st, .error "missing variable node")
      | some lfv =>
        match trailingName lfv.name with
        | none => (st, .error "Incorrectly named field")
        | some lname =>
          match findAndAssign fl fuel st lf lname rhsFields with
          | (st', .ok true) => assignStructFields fl fuel st' rest rhsFields
          | (st', .ok false) => (st', .error "Struct types mismatched")
          | (st', .error e) => (st', .error e)
termination_by structural fuel

/-- The inner `for rhs_field in rhs_fields.iter()` search (assign.rs lines
117-131): assign the first right field whose trailing name matches and
report whether one was found. -/
def findAndAssign (fl : AssignFlags) (fuel : Nat) (st : AStore) (lf : Nat)
    (lname : List Char) (rhsFields : List Nat) : AStore × Except String Bool :=
  match fuel with
  | 0 => (st, .error "recursion fuel exhausted")
  | fuel + 1 =>
    match rhsFields with
    | [] => (st, .ok false)
    | rf :: rfs =>
      match getVar st rf with
      | none => (st, .error "missing variable node")
      | some rfv =>
        match trailingName rfv.name with
        | none => (st, .error "Incorrectly named field")
        | some rname =>
          if lname = rname then
            match assign fl fuel st lf rf with
            | (st', .ok _) => (st', .ok true)
            | (st', .error e) => (st', .error e)
          else findAndAssign fl fuel st lf lname rfs
termination_by structural fuel

end


/-! ### Concrete scenarios -/

/-- A plain scalar `ContextVar` template. -/
def baseAVar : AVar :=
  { name := "x", isStructV := false, fields := [], tyId := 0, rmin := none,
    rmax := none, excl := [], next := none, tmpOf := none, depOn := none,
    isStorage := false, isReturn := false, hasCtx := true, extCall := false }

/-- All fallible Range-setting operations succeed. -/
def allOk : AssignFlags := { setMinOk := true, setMaxOk := true, setExclOk := true }

/-- The pre-assignment version of `x`, with range `[5, 5]`. -/
def xVar0 : AVar :=
  { baseAVar with name := "x", rmin := some (.econst 5), rmax := some (.econst 5) }

/-- The temporary produced for `x + 1`: its range references node 0. -/
def xVar1 : AVar :=
  { baseAVar with name := "tmp9", tmpOf := some 0, rmin := some (.eadd (.eref 0) (.econst 1)), rmax := some (.eadd (.eref 0) (.econst 1)) }

/-- The `x = x + 1` scenario store: node 0 is the pre-assignment version
of `x`; node 1 is the temporary for `x + 1`. -/
def xAsgStore : AStore := { vars := [xVar0, xVar1], edges := [] }

/-- Struct assignment with a left field (`l.y`) that has no right field
with the same trailing name: node 0 is struct `l` with fields 2 and 3,
node 1 is struct `r` with field 4 only. -/
def structStoreBad : AStore :=
  { vars :=
      [{ baseAVar with name := "l", isStructV := true, fields := [2, 3] },
       { baseAVar with name := "r", isStructV := true, fields := [4] },
       { baseAVar with name := "l.x", rmin := some (.econst 0), rmax := some (.econst 1) },
       { baseAVar with name := "l.y", rmin := some (.econst 0), rmax := some (.econst 1) },
       { baseAVar with name := "r.x", rmin := some (.econst 7), rmax := some (.econst 7) }],
    edges := [] }

/-- Struct assignment with fully matching trailing field names. -/
def structStoreOk : AStore :=
  { vars :=
      [{ baseAVar with name := "l", isStructV := true, fields := [2, 3] },
       { baseAVar with name := "r", isStructV := true, fields := [4, 5] },
       { baseAVar with name := "l.x", rmin := some (.econst 0), rmax := some (.econst 1) },
       { baseAVar with name := "l.y", rmin := some (.econst 0), rmax := some (.econst 1) },
       { baseAVar with name := "r.x", rmin := some (.econst 7), rmax := some (.econst 7) },
       { baseAVar with name := "r.y", rmin := some (.econst 8), rmax := some (.econst 8) }],
    edges := [] }

/-- Global well-formedness: every node carries the same declared type
(`ty_eq` holds between any two nodes, as for a struct of uniformly typed
scalar fields). -/
def allTy0 (st : AStore) : Prop :=
  ∀ i v, getVar st i = some v → v.tyId = 0

/-- Global well-formedness: no node is a function-return value. -/
def allNotReturn (st : AStore) : Prop :=
  ∀ i v, getVar st i = some v → v.isReturn = false

/-- Shape preservation between stores: nodes are never removed and keep
their name, structness and return flag. -/
def presShape (st st' : AStore) : Prop :=
  st.vars.length ≤ st'.vars.length ∧
  ∀ i v, getVar st i = some v → ∃ v', getVar st' i = some v' ∧
    v'.name = v.name ∧ v'.isStructV = v.isStructV ∧ v'.isReturn = v.isReturn

/-- Preservation property of every store update `assign` performs: shape
is preserved, and the global uniform-type and no-return invariants are
maintained. -/
def stepPres (st st' : AStore) : Prop :=
  presShape st st' ∧ (allTy0 st → allTy0 st') ∧ (allNotReturn st → allNotReturn st')

/-- Frame property of the bookkeeping steps between the advance of the
left variable and the final advance of the right operand: the variable
store keeps its length, every node other than `k` is untouched, and node
`k` keeps its name. -/
def frameOk (a b : AStore) (k : Nat) : Prop :=
  a.vars.length = b.vars.length ∧
  (∀ j, j ≠ k → getVar b j = getVar a j) ∧
  (getVar b k).map AVar.name = (getVar a k).map AVar.name

/-- The decimal digits of `2 ^ 255`, the largest magnitude a negative
literal may have. -/
def pow255Str : String :=
  "57896044618658097711785492504343953926634992332820282019728792003956564819968"

/-- The decimal digits of `2 ^ 255 + 1`. -/
def pow255SuccStr : String :=
  "57896044618658097711785492504343953926634992332820282019728792003956564819969"

/-! ## Theorems -/

/-- A parsed `U256` is below `2 ^ 256`. -/
theorem u256FromStr_lt {s : String} {m : Nat} (h : u256FromStr s = some m) :
    m < 2 ^ 256 := by
  unfold u256FromStr at h
  by_cases he : s.data.isEmpty = true
  · rw [if_pos he] at h; exact absurd h (by simp)
  · rw [if_neg he] at h
    rcases hp : parseDecCore s.data 0 with _ | v <;> simp only [hp] at h
    · exact absurd h (by simp)
    · by_cases hv : v < 2 ^ 256
      · rw [if_pos hv, Option.some.injEq] at h; omega
      · rw [if_neg hv] at h; exact absurd h (by simp)

/-- `bitLenCore` computes an upper bound: `n < 2 ^ bitLenCore fuel n`
whenever the budget covers `n`. -/
theorem bitLenCore_lt : ∀ (fuel n : Nat), n < 2 ^ fuel → n < 2 ^ bitLenCore fuel n := by
  intro fuel
  induction fuel with
  | zero => intro n h; simpa [bitLenCore] using h
  | succ fuel ih =>
    intro n h
    by_cases h0 : n = 0
    · simp [bitLenCore, h0]
    · have hdiv : n / 2 < 2 ^ fuel := by
        have := Nat.pow_succ 2 fuel
        omega
      have hb := ih (n / 2) hdiv
      simp only [bitLenCore, h0, if_false]
      have := Nat.pow_succ 2 (bitLenCore fuel (n / 2))
      omega

/-- `bitLenCore` is minimal: any bit count `w` with `n < 2 ^ w` is at
least the computed bit length. -/
theorem bitLenCore_min : ∀ (fuel n w : Nat), n < 2 ^ fuel → n < 2 ^ w →
    bitLenCore fuel n ≤ w := by
  intro fuel
  induction fuel with
  | zero => intro n w _ _; simp [bitLenCore]
  | succ fuel ih =>
    intro n w h hw
    by_cases h0 : n = 0
    · simp [bitLenCore, h0]
    · have hwpos : 1 ≤ w := by
        rcases Nat.eq_zero_or_pos w with h' | h'
        · subst h'; simp at hw; omega
        · exact h'
      have hdiv : n / 2 < 2 ^ fuel := by
        have := Nat.pow_succ 2 fuel
        omega
      have hdivw : n / 2 < 2 ^ (w - 1) := by
        have h2 : 2 ^ w = 2 ^ (w - 1) * 2 := by
          rw [← Nat.pow_succ]
          congr 1
          omega
        omega
      have := ih (n / 2) (w - 1) hdiv hdivw
      simp only [bitLenCore, h0, if_false]
      omega

/-- The width computed by `concrete_number_from_str` is the minimal
8-bit-aligned width (at least 8) whose unsigned domain contains the
magnitude. -/
theorem litSize_spec (v : Nat) (h : v < 2 ^ 256) :
    litSize v % 8 = 0 ∧ 8 ≤ litSize v ∧ v < 2 ^ litSize v ∧
    ∀ w, w % 8 = 0 → 8 ≤ w → v < 2 ^ w → litSize v ≤ w := by
  have hb_lt : v < 2 ^ bitLen v := bitLenCore_lt 256 v h
  have hb_le : bitLen v ≤ 256 := bitLenCore_min 256 v 256 h h
  have hls : litSize v = max ((32 - (256 - bitLen v) / 8) * 8) 8 := rfl
  refine ⟨?_, ?_, ?_, ?_⟩
  · rw [hls, Nat.max_def]; split <;> omega
  · rw [hls]; exact le_max_right _ _
  · have hsize : bitLen v ≤ litSize v := by
      rw [hls]
      have h1 : bitLen v ≤ (32 - (256 - bitLen v) / 8) * 8 := by omega
      exact h1.trans (le_max_left _ _)
    exact lt_of_lt_of_le hb_lt (Nat.pow_le_pow_right (by norm_num) hsize)
  · intro w hw8 hw8' hvw
    have hbw : bitLen v ≤ w := bitLenCore_min 256 v w h hvw
    rw [hls, Nat.max_def]
    split <;> omega

/-- C6: parsing the decimal literal "123" yields an unsigned `Concrete` of
width 8 and value 123, with exponent "10" an unsigned `Concrete` of width
48 and value 1230000000000, and in general the width attached to a numeric
literal is the minimal 8-bit-aligned width representing the computed
magnitude. -/
theorem claim6_literal_widths :
    concreteNumberFromStr "123" "" false none = .ok (.uint 8 123) ∧
    concreteNumberFromStr "123" "10" false none = .ok (.uint 48 1230000000000) ∧
    ∀ v : Nat, v < 2 ^ 256 →
      litSize v % 8 = 0 ∧ 8 ≤ litSize v ∧ v < 2 ^ litSize v ∧
      ∀ w, w % 8 = 0 → 8 ≤ w → v < 2 ^ w → litSize v ≤ w :=
  ⟨by decide, by decide, fun v h => litSize_spec v h⟩

/-- Witness for C6 at the concrete magnitude 1230000000000. -/
theorem claim6_literal_widths_witness :
    litSize 1230000000000 % 8 = 0 ∧ 8 ≤ litSize 1230000000000 ∧
      1230000000000 < 2 ^ litSize 1230000000000 :=
  ⟨(claim6_literal_widths.2.2 1230000000000 (by norm_num)).1,
   (claim6_literal_widths.2.2 1230000000000 (by norm_num)).2.1,
   (claim6_literal_widths.2.2 1230000000000 (by norm_num)).2.2.1⟩

/-- A negative magnitude strictly between `2 ^ 255` and `2 ^ 256` is
rejected: its raw two's-complement reinterpretation is negative. -/
theorem concreteNumberFromStr_neg_overflow (s : String) (m : Nat)
    (hs : u256FromStr s = some m) (hm : 2 ^ 255 < m) :
    concreteNumberFromStr s "" true none = .error "Negative value cannot fit into int256" := by
  have hmlt := u256FromStr_lt hs
  have hne : ¬(m = 2 ^ 255) := by omega
  have hraw : i256FromRaw m < 0 := by
    unfold i256FromRaw
    rw [if_neg (by omega)]
    have : (m : Int) < 2 ^ 256 := by exact_mod_cast hmlt
    omega
  have he : ("" : String).data.isEmpty = true := rfl
  unfold concreteNumberFromStr
  simp only [hs, he, if_true]
  rw [if_neg hne, if_pos hraw]

/-- A parse error in `concrete_number_from_str` propagates out of
`number_literal` before any variable is registered or pushed. -/
theorem numberLiteral_error (ctx : LitCtx) (integer exponent : String)
    (negative : Bool) (unit : Option String) (msg : String)
    (h : concreteNumberFromStr integer exponent negative unit = .error msg) :
    numberLiteral ctx integer exponent negative unit = (ctx, .error msg) := by
  unfold numberLiteral
  simp only [h]

/-- C7: a negative decimal literal of magnitude exactly `2 ^ 255` succeeds
as signed width 256 with value `-2 ^ 255`; any larger magnitude (up to the
uint256 limit) fails with a parse error, and the failed operation pushes
no literal and registers no variable. -/
theorem claim7_negative_boundary :
    concreteNumberFromStr pow255Str "" true none = .ok (.int 256 (-(2 ^ 255))) ∧
    concreteNumberFromStr pow255SuccStr "" true none
      = .error "Negative value cannot fit into int256" ∧
    (∀ s m, u256FromStr s = some m → 2 ^ 255 < m →
       concreteNumberFromStr s "" true none
         = .error "Negative value cannot fit into int256") ∧
    (∀ ctx integer exponent negative unit msg,
       concreteNumberFromStr integer exponent negative unit = .error msg →
       numberLiteral ctx integer exponent negative unit = (ctx, .error msg)) :=
  ⟨by decide, by decide,
   fun s m hs hm => concreteNumberFromStr_neg_overflow s m hs hm,
   fun ctx i e n u msg h => numberLiteral_error ctx i e n u msg h⟩

/-- Witness for C7 at magnitude `2 ^ 255 + 1`. -/
theorem claim7_negative_boundary_witness :
    concreteNumberFromStr pow255SuccStr "" true none
      = .error "Negative value cannot fit into int256" ∧
    numberLiteral ⟨[], []⟩ pow255SuccStr "" true none
      = (⟨[], []⟩, .error "Negative value cannot fit into int256") := by
  have h1 := claim7_negative_boundary.2.2.1 pow255SuccStr (2 ^ 255 + 1)
    (by decide) (by norm_num)
  exact ⟨h1, claim7_negative_boundary.2.2.2 ⟨[], []⟩ pow255SuccStr "" true none _ h1⟩

/-- C3: the rational literal 1.00001e18 evaluates per the exact formula to
unsigned width 64, value 1000010000000000000; but the code's guard
(`fraction > 10 ^ exp * unit`) does not enforce exactness: 1.05e1 (whose
division is inexact) is accepted and truncates to 0 instead of failing,
and 0.5e1 (whose division is exact, formula value 5) is computed as 15
because the integer part is clamped to `max(integer, 1)`. -/
theorem claim3_rational_exactness :
    rationalNumberLiteral ⟨[], []⟩ "1" "00001" "18" none false
      = (⟨[.uint 64 1000010000000000000], [0]⟩, .ok ()) ∧
    (1 * 10 ^ 5 + 1) * 10 ^ 18 % 10 ^ 5 = 0 ∧
    (1 * 10 ^ 5 + 1) * 10 ^ 18 / 10 ^ 5 = 1000010000000000000 ∧
    rationalNumberLiteral ⟨[], []⟩ "1" "05" "1" none false
      = (⟨[.uint 8 0], [0]⟩, .ok ()) ∧
    (1 * 10 ^ 2 + 5) * 10 ^ 1 % 10 ^ 2 ≠ 0 ∧
    rationalNumberLiteral ⟨[], []⟩ "0" "5" "1" none false
      = (⟨[.uint 8 15], [0]⟩, .ok ()) ∧
    (0 * 10 ^ 1 + 5) * 10 ^ 1 % 10 ^ 1 = 0 ∧
    (0 * 10 ^ 1 + 5) * 10 ^ 1 / 10 ^ 1 = 5 :=
  ⟨by decide, by decide, by decide, by decide, by decide, by decide, by decide, by decide⟩

/-- Characterization of the `hex_literals` loop accumulator: on an
all-zero byte list it returns the initial accumulator, otherwise it
returns the offset of the last non-zero byte plus one. -/
theorem hexMaxCore_spec : ∀ (h : List Nat) (i m : Nat),
    (hexMaxCore h i m = m ∧ ∀ j, j < h.length → h.getD j 0 = 0) ∨
    (∃ k, k < h.length ∧ h.getD k 0 ≠ 0 ∧
      (∀ j, k < j → j < h.length → h.getD j 0 = 0) ∧
      hexMaxCore h i m = i + k + 1) := by
  intro h
  induction h with
  | nil =>
    intro i m
    exact Or.inl ⟨rfl, fun j hj => absurd hj (by simp)⟩
  | cons b bs ih =>
    intro i m
    have hstep : hexMaxCore (b :: bs) i m
        = hexMaxCore bs (i + 1) (if b ≠ 0 then i + 1 else m) := rfl
    rcases ih (i + 1) (if b ≠ 0 then i + 1 else m) with ⟨he, hz⟩ | ⟨k, hk, hnz, hz, he⟩
    · by_cases hb : b = 0
      · refine Or.inl ⟨?_, ?_⟩
        · rw [hstep, he, if_neg (by omega)]
        · intro j hj
          cases j with
          | zero => simpa using hb
          | succ j => simpa using hz j (by simpa using hj)
      · refine Or.inr ⟨0, by simp, by simpa using hb, ?_, ?_⟩
        · intro j h0 hlen
          cases j with
          | zero => omega
          | succ j => simpa using hz j (by simpa using hlen)
        · rw [hstep, he, if_pos hb]
    · refine Or.inr ⟨k + 1, by simpa using hk, by simpa using hnz, ?_, ?_⟩
      · intro j hj hlen
        cases j with
        | zero => omega
        | succ j => simpa using hz j (by omega) (by simpa using hlen)
      · rw [hstep, he]
        omega

/-- `getD` out of range yields the default. -/
theorem getD_out_of_range {α : Type} (l : List α) (j : Nat) (d : α)
    (h : l.length ≤ j) : l.getD j d = d := by
  simp [List.getD, List.getElem?_eq_none h]

/-- The empty byte list fills the 32-byte buffer with zeros. -/
theorem hexTarget_nil : hexTarget [] = List.replicate 32 0 := by decide

/-- C8: a raw hex-byte literal that decodes to at most 32 bytes becomes a
fixed byte block whose 32-byte buffer holds the decoded bytes right-padded
with zeros and whose logical length is the index of the last non-zero byte
plus one; more than 32 decoded bytes becomes a variable-length byte
sequence; [0x7B, 0xFF] gives logical length 2 with buffer bytes 0x7B, 0xFF
and an all-zero single byte gives logical length 0. -/
theorem claim8_hex_bytes :
    (∀ ctx s h, hexDecode s = some h → h.length ≤ 32 →
       hexLiterals ctx s = (pushSingleLiteral ctx (.bytes (hexMax h) (hexTarget h)), .ok ()) ∧
       hexMax h ≤ h.length ∧
       (∀ j, hexMax h ≤ j → h.getD j 0 = 0) ∧
       (hexMax h = 0 ∨ h.getD (hexMax h - 1) 0 ≠ 0) ∧
       (hexTarget h).length = 32 ∧
       (∀ i, i < 32 → (hexTarget h).getD i 0 = h.getD i 0)) ∧
    (∀ ctx s h, hexDecode s = some h → 32 < h.length →
       hexLiterals ctx s = (pushSingleLiteral ctx (.dynBytes h), .ok ())) ∧
    hexLiterals ⟨[], []⟩ "7BFF"
      = (⟨[.bytes 2 ([123, 255] ++ List.replicate 30 0)], [0]⟩, .ok ()) ∧
    hexLiterals ⟨[], []⟩ "00" = (⟨[.bytes 0 (List.replicate 32 0)], [0]⟩, .ok ()) := by
  refine ⟨?_, ?_, by decide, by decide⟩
  · intro ctx s h hs hlen
    refine ⟨?_, ?_, ?_, ?_, ?_, ?_⟩
    · unfold hexLiterals
      simp only [hs, if_pos hlen]
    · rcases hexMaxCore_spec h 0 0 with ⟨he, _⟩ | ⟨k, hk, _, _, he⟩
      · unfold hexMax; omega
      · unfold hexMax; omega
    · intro j hj
      rcases hexMaxCore_spec h 0 0 with ⟨he, hz⟩ | ⟨k, hk, _, hz, he⟩
      · rcases Nat.lt_or_ge j h.length with h' | h'
        · exact hz j h'
        · exact getD_out_of_range h j 0 h'
      · rcases Nat.lt_or_ge j h.length with h' | h'
        · refine hz j ?_ h'
          unfold hexMax at hj; omega
        · exact getD_out_of_range h j 0 h'
    · rcases hexMaxCore_spec h 0 0 with ⟨he, _⟩ | ⟨k, hk, hnz, _, he⟩
      · left; unfold hexMax; omega
      · right
        have : hexMax h = k + 1 := by unfold hexMax; omega
        rw [this]
        simpa using hnz
    · simp [hexTarget]
    · intro i hi
      simp [hexTarget, List.getD, List.getElem?_map, List.getElem?_range hi]
  · intro ctx s h hs hlen
    unfold hexLiterals
    simp only [hs, if_neg (by omega : ¬h.length ≤ 32)]

/-- Witness for C8 at the decoded pair [0x7B, 0xFF]. -/
theorem claim8_hex_bytes_witness :
    hexLiterals ⟨[], []⟩ "7BFF"
      = (pushSingleLiteral ⟨[], []⟩ (.bytes (hexMax [123, 255]) (hexTarget [123, 255])), .ok ()) ∧
    hexMax [123, 255] ≤ 2 := by
  have h := claim8_hex_bytes.1 ⟨[], []⟩ "7BFF" [123, 255] (by decide) (by decide)
  exact ⟨h.1, h.2.1⟩

/-- C10: hex-byte literal text that fails to decode (odd digit count or a
non-hex character) is not an error: it is treated as an empty byte
sequence, producing a fixed byte block of logical length 0 with an
all-zero buffer, still registering a variable and pushing a
single-literal result — unlike address literals, where malformed text is a
parse error that mutates nothing. -/
theorem claim10_malformed_hex :
    (∀ ctx s, hexDecode s = none →
       hexLiterals ctx s = (pushSingleLiteral ctx (.bytes 0 (List.replicate 32 0)), .ok ())) ∧
    hexDecode "7" = none ∧
    hexDecode "7G" = none ∧
    (∀ ctx s, addressFromStr s = none →
       addressLiteral ctx s = (ctx, .error "address parse error")) := by
  refine ⟨?_, by decide, by decide, ?_⟩
  · intro ctx s hs
    unfold hexLiterals
    simp only [hs]
    rw [if_pos (by simp), hexTarget_nil]
    rfl
  · intro ctx s hs
    unfold addressLiteral
    simp only [hs]

/-- Witness for C10 at the odd-length text "7G" and malformed address
"xyz". -/
theorem claim10_malformed_hex_witness :
    hexLiterals ⟨[], []⟩ "7G"
      = (pushSingleLiteral ⟨[], []⟩ (.bytes 0 (List.replicate 32 0)), .ok ()) ∧
    addressLiteral ⟨[], []⟩ "xyz" = (⟨[], []⟩, .error "address parse error") :=
  ⟨claim10_malformed_hex.1 ⟨[], []⟩ "7G" (by decide),
   claim10_malformed_hex.2.2.2 ⟨[], []⟩ "xyz" (by decide)⟩

/-- When every later version carries a range, the reporter's walk agrees
with the specification walk over the (location, range) pairs. -/
theorem boundWalk_spec : ∀ (rest : List BVersion) (r : Elem × Elem),
    (∀ v ∈ rest, v.rng.isSome) →
    boundWalk r rest
      = specBoundChanges r
          (rest.map fun v => (v.loc, v.rng.getD (Elem.econst 0, Elem.econst 0))) := by
  intro rest
  induction rest with
  | nil => intro r _; rfl
  | cons v rest ih =>
    intro r hall
    have hv : v.rng.isSome := hall v (by simp)
    rcases Option.isSome_iff_exists.mp hv with ⟨nr, hnr⟩
    have hrest : ∀ w ∈ rest, w.rng.isSome := fun w hw => hall w (by simp [hw])
    simp only [boundWalk, hnr, List.map_cons, specBoundChanges, Option.getD_some]
    rw [ih nr hrest]

/-- C5: the bound-history walk records exactly the versions whose Range
differs from the immediately preceding version's Range, in chain order;
for a chain V0, V1, V2 where only V1 differs from V0 and V2 equals V1, the
log holds exactly one entry, for V1. -/
theorem claim5_bound_history :
    (∀ (v0 : BVersion) (rest : List BVersion) (r0 : Elem × Elem),
       v0.rng = some r0 → (∀ v ∈ rest, v.rng.isSome) →
       (boundsForVarNode v0 rest).boundChanges
         = specBoundChanges r0
             (rest.map fun v => (v.loc, v.rng.getD (Elem.econst 0, Elem.econst 0)))) ∧
    (boundsForVarNode ⟨10, some (.econst 0, .econst 5)⟩
        [⟨11, some (.econst 0, .econst 7)⟩, ⟨12, some (.econst 0, .econst 7)⟩]).boundChanges
      = [(11, (.econst 0, .econst 7))] := by
  refine ⟨?_, by decide⟩
  intro v0 rest r0 h0 hall
  unfold boundsForVarNode
  simp only [h0]
  exact boundWalk_spec rest r0 hall

/-- Witness for C5 on the three-version chain. -/
theorem claim5_bound_history_witness :
    (boundsForVarNode ⟨10, some (.econst 0, .econst 5)⟩
        [⟨11, some (.econst 0, .econst 7)⟩, ⟨12, some (.econst 0, .econst 7)⟩]).boundChanges
      = specBoundChanges (.econst 0, .econst 5)
          [(11, (.econst 0, .econst 7)), (12, (.econst 0, .econst 7))] := by
  have h := claim5_bound_history.1 ⟨10, some (.econst 0, .econst 5)⟩
    [⟨11, some (.econst 0, .econst 7)⟩, ⟨12, some (.econst 0, .econst 7)⟩]
    (.econst 0, .econst 5) rfl (by decide)
  simpa using h

/-- Setting an index to the element already there leaves a list
unchanged. -/
theorem set_self {α : Type} : ∀ (l : List α) (i : Nat) (x : α),
    l[i]? = some x → l.set i x = l := by
  intro l
  induction l with
  | nil => intro i x h; simp at h
  | cons c cs ih =>
    intro i x h
    cases i with
    | zero => simp at h; simp [h]
    | succ i => simp at h; simp [ih i x h]

/-- Setting the appended last element. -/
theorem set_append_length {α : Type} : ∀ (l : List α) (x y : α),
    (l ++ [x]).set l.length y = l ++ [y] := by
  intro l
  induction l with
  | nil => intro x y; rfl
  | cons c cs ih => intro x y; simp [ih]

/-- `gStep` never changes the variable's name. -/
theorem gStep_name (p w : WVar) : (gStep p w).name = w.name := by
  unfold gStep
  split
  · rcases defaultRange p.ty with _ | r <;> simp [setMaxW, setMinW, advanceW]
  · rfl

/-- A variable whose declared type has no default range is untouched. -/
theorem gStep_id_of_none (p w : WVar) (hd : defaultRange p.ty = none) :
    gStep p w = w := by
  unfold gStep
  rw [hd]
  split <;> rfl

/-- A variable whose name differs from the processed one is untouched. -/
theorem gStep_id_of_ne (p w : WVar) (hn : w.name ≠ p.name) : gStep p w = w := by
  unfold gStep
  rw [if_neg (by simpa using hn)]

/-- Reading back the element just set. -/
theorem getElem?_set_self' {α : Type} : ∀ (l : List α) (i : Nat) (x : α),
    i < l.length → (l.set i x)[i]? = some x := by
  intro l
  induction l with
  | nil => intro i x h; simp at h
  | cons c cs ih =>
    intro i x h
    cases i with
    | zero => simp
    | succ i => simpa using ih i x (by simpa using h)

/-- `set` leaves other positions untouched. -/
theorem getElem?_set_ne' {α : Type} : ∀ (l : List α) (i : Nat) (x : α) (j : Nat),
    i ≠ j → (l.set i x)[j]? = l[j]? := by
  intro l
  induction l with
  | nil => intro i x j _; simp
  | cons c cs ih =>
    intro i x j hne
    cases i with
    | zero =>
      cases j with
      | zero => omega
      | succ j => simp
    | succ i =>
      cases j with
      | zero => simp
      | succ j => simpa using ih i x j (by omega)

/-- `find?` commutes with a map that preserves the tested predicate. -/
theorem find?_map_pres {α : Type} (pred : α → Bool) (f : α → α)
    (hf : ∀ a, pred (f a) = pred a) :
    ∀ l : List α, (l.map f).find? pred = (l.find? pred).map f := by
  intro l
  induction l with
  | nil => rfl
  | cons a l ih =>
    rcases ha : pred a with _ | _
    · rw [List.map_cons, List.find?_cons_of_neg _ (by rw [hf]; simp [ha]),
        List.find?_cons_of_neg _ (by simp [ha])]
      exact ih
    · rw [List.map_cons, List.find?_cons_of_pos _ (by rw [hf]; exact ha),
        List.find?_cons_of_pos _ ha]
      rfl

/-- One widening step, when the loop-body context exists and locally
declares the processed name, maps `gStep` over that context's variables. -/
theorem widenStep_eq (subId : Nat) (st : WState) (p : WVar) (sub : WCtx)
    (hsub : st.ctxs[subId]? = some sub)
    (hfind : (sub.vars.find? (fun w => w.name == p.name)).isSome) :
    widenStep subId st p
      = { ctxs := st.ctxs.set subId { sub with vars := sub.vars.map (gStep p) } } := by
  have hlen : subId < st.ctxs.length := by
    by_contra hge
    rw [List.getElem?_eq_none (by omega)] at hsub
    simp at hsub
  rcases Option.isSome_iff_exists.mp hfind with ⟨w0, hw0⟩
  have hvbn : varByName st.ctxs.length st subId p.name = some w0 := by
    have h1 : st.ctxs.length = (st.ctxs.length - 1) + 1 := by omega
    rw [h1]
    unfold varByName
    simp only [hsub, hw0]
  unfold widenStep
  rcases hd : defaultRange p.ty with _ | r
  · simp only [hvbn, hd]
    have hmap : sub.vars.map (gStep p) = sub.vars := by
      calc sub.vars.map (gStep p)
          = sub.vars.map id := List.map_congr_left fun w _ => gStep_id_of_none p w hd
        _ = sub.vars := List.map_id _
    rw [hmap, set_self st.ctxs subId sub hsub]
  · unfold advanceVarInCtxW
    simp only [hvbn, hd, hsub, hw0]
    have hmap : sub.vars.map
        (fun v => if (v.name == p.name) = true then setMaxW (setMinW (advanceW v) r.1) r.2 else v)
          = sub.vars.map (gStep p) :=
      List.map_congr_left fun w _ => by unfold gStep; rw [hd]
    rw [hmap]

/-- The widening fold rewrites exactly the loop-body context, applying
`gStep` for each processed variable in order. -/
theorem resetFold_eq : ∀ (process : List WVar) (st : WState) (sub : WCtx) (subId : Nat),
    st.ctxs[subId]? = some sub →
    (∀ p ∈ process, (sub.vars.find? (fun w => w.name == p.name)).isSome) →
    process.foldl (widenStep subId) st
      = { ctxs := st.ctxs.set subId { sub with vars := widenAll process sub.vars } } := by
  intro process
  induction process with
  | nil =>
    intro st sub subId hsub _
    simp only [List.foldl_nil, widenAll, set_self st.ctxs subId sub hsub]
  | cons p rest ih =>
    intro st sub subId hsub hall
    have hp := hall p (by simp)
    have hstep := widenStep_eq subId st p sub hsub hp
    have hlen : subId < st.ctxs.length := by
      by_contra hge
      rw [List.getElem?_eq_none (by omega)] at hsub
      simp at hsub
    have hsub' : (widenStep subId st p).ctxs[subId]?
        = some { sub with vars := sub.vars.map (gStep p) } := by
      rw [hstep]
      exact getElem?_set_self' st.ctxs subId _ hlen
    have hall' : ∀ q ∈ rest,
        (((sub.vars.map (gStep p)).find? (fun w => w.name == q.name))).isSome := by
      intro q hq
      rw [find?_map_pres _ _ (fun a => by rw [gStep_name])]
      simpa using hall q (by simp [hq])
    rw [List.foldl_cons, ih (widenStep subId st p) _ subId hsub' hall', hstep]
    simp only [List.set_set]
    rfl

/-- With distinct names, `find?` by a member's name returns that member. -/
theorem find?_name_of_nodup : ∀ (vars : List WVar) (v : WVar),
    v ∈ vars → (vars.map WVar.name).Nodup →
    vars.find? (fun w => w.name == v.name) = some v := by
  intro vars
  induction vars with
  | nil => intro v hv _; simp at hv
  | cons a l ih =>
    intro v hv hnd
    rcases List.mem_cons.mp hv with h | h
    · subst h
      exact List.find?_cons_of_pos _ (by simp)
    · have han : a.name ∉ l.map WVar.name := (List.nodup_cons.mp hnd).1
      have hvn : v.name ∈ l.map WVar.name := List.mem_map_of_mem _ h
      have hne : a.name ≠ v.name := fun he => han (he ▸ hvn)
      rw [List.find?_cons_of_neg _ (by simpa using hne)]
      exact ih v h (List.nodup_cons.mp hnd).2

/-- Later widening steps for other names leave a found entry in place. -/
theorem widenAll_preserve : ∀ (rest l : List WVar) (nm : String) (u : WVar),
    (∀ p ∈ rest, nm ≠ p.name) →
    l.find? (fun w => w.name == nm) = some u →
    u.name = nm →
    (widenAll rest l).find? (fun w => w.name == nm) = some u := by
  intro rest
  induction rest with
  | nil => intro l nm u _ hf _; simpa [widenAll] using hf
  | cons p rest ih =>
    intro l nm u hall hf hu
    have hstep : widenAll (p :: rest) l = widenAll rest (l.map (gStep p)) := by
      simp [widenAll, List.foldl_cons]
    rw [hstep]
    refine ih (l.map (gStep p)) nm u (fun q hq => hall q (by simp [hq])) ?_ hu
    rw [find?_map_pres _ _ (fun a => by rw [gStep_name]), hf]
    have : gStep p u = u := gStep_id_of_ne p u (by rw [hu]; exact hall p (by simp))
    simp [this]

/-- The widening fold turns the unique entry named like `v` into
`gStep v v`. -/
theorem widenAll_find : ∀ (process l : List WVar) (v : WVar),
    v ∈ process → (process.map WVar.name).Nodup →
    l.find? (fun w => w.name == v.name) = some v →
    (widenAll process l).find? (fun w => w.name == v.name) = some (gStep v v) := by
  intro process
  induction process with
  | nil => intro l v hv _ _; simp at hv
  | cons p rest ih =>
    intro l v hv hnd hf
    have hstep : widenAll (p :: rest) l = widenAll rest (l.map (gStep p)) := by
      simp [widenAll, List.foldl_cons]
    rw [hstep]
    rcases List.mem_cons.mp hv with h | h
    · subst h
      have hfm : (l.map (gStep v)).find? (fun w => w.name == v.name)
          = some (gStep v v) := by
        rw [find?_map_pres _ _ (fun a => by rw [gStep_name]), hf]
        rfl
      have hrest : ∀ q ∈ rest, v.name ≠ q.name := by
        intro q hq he
        exact (List.nodup_cons.mp hnd).1 (he ▸ List.mem_map_of_mem _ hq)
      exact widenAll_preserve rest _ v.name (gStep v v) hrest hfm (gStep_name v v)
    · have hne : v.name ≠ p.name := by
        intro he
        exact (List.nodup_cons.mp hnd).1 (he ▸ List.mem_map_of_mem _ h)
      have hfm : (l.map (gStep p)).find? (fun w => w.name == v.name) = some v := by
        rw [find?_map_pres _ _ (fun a => by rw [gStep_name]), hf]
        simp [gStep_id_of_ne p v hne]
      exact ih (l.map (gStep p)) v h (List.nodup_cons.mp hnd).2 hfm

/-- Reading the last element of an appended singleton. -/
theorem getD_concat_length (L : List (Option Nat × Option Nat))
    (x d : Option Nat × Option Nat) : (L ++ [x]).getD L.length d = x := by
  simp [List.getD]

/-- Widening one variable appends exactly one new version whose range is
the full default domain. -/
theorem gStep_self (v : WVar) (lo hi : Nat) (hd : defaultRange v.ty = some (lo, hi)) :
    gStep v v = { v with versions := v.versions ++ [(some lo, some hi)] } := by
  unfold gStep
  rw [if_pos (by simp), hd]
  unfold advanceW setMinW setMaxW
  simp only
  have hlen : (v.versions ++ [((none : Option Nat), (none : Option Nat))]).length - 1
      = v.versions.length := by simp
  rw [hlen, getD_concat_length, set_append_length]
  simp only
  have hlen2 : (v.versions ++ [((some lo : Option Nat), (none : Option Nat))]).length - 1
      = v.versions.length := by simp
  rw [hlen2, getD_concat_length, set_append_length]

/-- C4: after `reset_vars`, every variable declared in the loop-body child
context (shadowing an outer variable, with a defaulted declared type) has,
as observed from the freshly opened successor context, a new advanced
version whose Range min and max are the declared type's full default
domain — regardless of the single-pass-computed versions — and the
successor context is a fresh function-return style child of the loop
context. -/
theorem claim4_loop_widening :
    ∀ (st : WState) (cid : Nat) (bodyVars : List WVar) (v : WVar) (lo hi : Nat),
      v ∈ bodyVars →
      (bodyVars.map WVar.name).Nodup →
      (varByName st.ctxs.length st cid v.name).isSome →
      defaultRange v.ty = some (lo, hi) →
      cid < st.ctxs.length →
      (resetVars st cid bodyVars).ctxs[(resetVars st cid bodyVars).ctxs.length - 1]?
          = some { vars := [], parent := some st.ctxs.length, isFnRet := true } ∧
      varByName (resetVars st cid bodyVars).ctxs.length (resetVars st cid bodyVars)
          ((resetVars st cid bodyVars).ctxs.length - 1) v.name
        = some { v with versions := v.versions ++ [(some lo, some hi)] } := by
  intro st cid bodyVars v lo hi hv hnd _ hd _
  have hsub0 : (st.ctxs ++ [({ vars := bodyVars, parent := some cid, isFnRet := false } : WCtx)])[st.ctxs.length]?
      = some { vars := bodyVars, parent := some cid, isFnRet := false } :=
    List.getElem?_concat_length _ _
  have hall : ∀ p ∈ bodyVars,
      ((({ vars := bodyVars, parent := some cid, isFnRet := false } : WCtx)).vars.find?
        (fun w => w.name == p.name)).isSome := by
    intro p hp
    exact List.find?_isSome.mpr ⟨p, hp, by simp⟩
  have hfold := resetFold_eq bodyVars
    { ctxs := st.ctxs ++ [{ vars := bodyVars, parent := some cid, isFnRet := false }] }
    { vars := bodyVars, parent := some cid, isFnRet := false } st.ctxs.length hsub0 hall
  have hres : resetVars st cid bodyVars
      = { ctxs := (st.ctxs ++ [{ vars := widenAll bodyVars bodyVars, parent := some cid, isFnRet := false }])
            ++ [{ vars := [], parent := some st.ctxs.length, isFnRet := true }] } := by
    unfold resetVars
    simp only [hfold, set_append_length]
  rw [hres]
  have hlen : ((st.ctxs ++ [({ vars := widenAll bodyVars bodyVars, parent := some cid, isFnRet := false } : WCtx)])
      ++ [({ vars := [], parent := some st.ctxs.length, isFnRet := true } : WCtx)]).length
      = st.ctxs.length + 2 := by simp
  constructor
  · rw [hlen]
    have h2 : st.ctxs.length + 2 - 1
        = (st.ctxs ++ [({ vars := widenAll bodyVars bodyVars, parent := some cid, isFnRet := false } : WCtx)]).length := by
      simp
    rw [h2]
    exact List.getElem?_concat_length _ _
  · rw [hlen]
    have h2 : st.ctxs.length + 2 - 1 = st.ctxs.length + 1 := by omega
    rw [h2]
    have h3 : st.ctxs.length + 2 = (st.ctxs.length + 1) + 1 := by omega
    rw [h3]
    unfold varByName
    have hsucc : ((st.ctxs ++ [({ vars := widenAll bodyVars bodyVars, parent := some cid, isFnRet := false } : WCtx)])
        ++ [({ vars := [], parent := some st.ctxs.length, isFnRet := true } : WCtx)])[st.ctxs.length + 1]?
        = some { vars := [], parent := some st.ctxs.length, isFnRet := true } := by
      have := List.getElem?_concat_length
        (st.ctxs ++ [({ vars := widenAll bodyVars bodyVars, parent := some cid, isFnRet := false } : WCtx)])
        ({ vars := [], parent := some st.ctxs.length, isFnRet := true } : WCtx)
      simpa using this
    simp only [hsucc, List.find?_nil]
    have h4 : st.ctxs.length + 1 = st.ctxs.length + 1 := rfl
    unfold varByName
    have hsub' : ((st.ctxs ++ [({ vars := widenAll bodyVars bodyVars, parent := some cid, isFnRet := false } : WCtx)])
        ++ [({ vars := [], parent := some st.ctxs.length, isFnRet := true } : WCtx)])[st.ctxs.length]?
        = some { vars := widenAll bodyVars bodyVars, parent := some cid, isFnRet := false } := by
      rw [List.getElem?_append, if_pos (by simp)]
      exact List.getElem?_concat_length _ _
    simp only [hsub']
    have hfind := widenAll_find bodyVars bodyVars v hv hnd
      (find?_name_of_nodup bodyVars v hv hnd)
    rw [hfind, gStep_self v lo hi hd]

/-- Witness for C4: a single loop-declared `uint8` variable shadowing a
parent variable is widened to `[0, 255]` in the successor context. -/
theorem claim4_loop_widening_witness :
    (resetVars ⟨[⟨[⟨"i", .uintT 8, [(some 0, some 0)]⟩], none, false⟩]⟩ 0
        [⟨"i", .uintT 8, [(some 3, some 3)]⟩]).ctxs[2]?
        = some { vars := [], parent := some 1, isFnRet := true } ∧
    varByName 3 (resetVars ⟨[⟨[⟨"i", .uintT 8, [(some 0, some 0)]⟩], none, false⟩]⟩ 0
        [⟨"i", .uintT 8, [(some 3, some 3)]⟩]) 2 "i"
      = some ⟨"i", .uintT 8, [(some 3, some 3), (some 0, some 255)]⟩ := by
  have h := claim4_loop_widening ⟨[⟨[⟨"i", .uintT 8, [(some 0, some 0)]⟩], none, false⟩]⟩ 0
    [⟨"i", .uintT 8, [(some 3, some 3)]⟩] ⟨"i", .uintT 8, [(some 3, some 3)]⟩ 0 255
    (by simp) (by simp) (by decide) (by decide) (by decide)
  exact ⟨h.1, h.2⟩

/-- Looking past the end of the store finds nothing: a fresh advance id is
guaranteed not to be an existing version. -/
theorem getVar_length_none (st : AStore) : getVar st st.vars.length = none := by
  simp [getVar]

/-- A found node is inside the store. -/
theorem getVar_lt {st : AStore} {i : Nat} {v : AVar} (h : getVar st i = some v) :
    i < st.vars.length := by
  by_contra hge
  rw [getVar, List.getElem?_eq_none (by omega)] at h
  simp at h

/-- A variable that is its own latest version resolves to itself. -/
theorem latestVersion_none (st : AStore) (i : Nat) (v : AVar)
    (hv : getVar st i = some v) (hn : v.next = none) : latestVersion st i = i := by
  unfold latestVersion latestVersionCore
  simp only [hv, hn]

theorem frameOk_refl (a : AStore) (k : Nat) : frameOk a a k :=
  ⟨rfl, fun _ _ => rfl, rfl⟩

theorem frameOk_trans {a b c : AStore} {k : Nat}
    (h1 : frameOk a b k) (h2 : frameOk b c k) : frameOk a c k :=
  ⟨h1.1.trans h2.1, fun j hj => (h2.2.1 j hj).trans (h1.2.1 j hj),
   h2.2.2.trans h1.2.2⟩

/-- `modifyVar` with a name-preserving update frames on its index. -/
theorem frame_modifyVar (st : AStore) (k : Nat) (f : AVar → AVar)
    (hf : ∀ v, (f v).name = v.name) : frameOk st (modifyVar st k f) k := by
  unfold modifyVar
  rcases h : getVar st k with _ | v
  · exact frameOk_refl _ _
  · have hk : k < st.vars.length := getVar_lt h
    refine ⟨by simp [setVar], ?_, ?_⟩
    · intro j hj
      show getVar (setVar st k (f v)) j = getVar st j
      unfold getVar setVar
      exact getElem?_set_ne' st.vars k (f v) j (fun he => hj he.symm)
    · show (getVar (setVar st k (f v)) k).map AVar.name = (getVar st k).map AVar.name
      unfold getVar setVar
      simp only
      rw [getElem?_set_self' st.vars k (f v) hk]
      rw [getVar] at h
      rw [h]
      simp [hf v]

/-- `setTmpOf` frames. -/
theorem frame_setTmpOf (st : AStore) (k : Nat) (rv : AVar) :
    frameOk st (setTmpOf st k rv) k :=
  frame_modifyVar st k _ (fun _ => rfl)

/-- `setDepOn` frames. -/
theorem frame_setDepOn (st : AStore) (k r : Nat) :
    frameOk st (setDepOn st k r) k :=
  frame_modifyVar st k _ (fun v => by rcases v.depOn with _ | l <;> rfl)

/-- `addStorageEdge` only touches edges. -/
theorem frame_addStorageEdge (st : AStore) (k r : Nat) (lv : AVar) :
    frameOk st (addStorageEdge st k r lv) k := by
  unfold addStorageEdge
  split
  · exact ⟨rfl, fun _ _ => rfl, rfl⟩
  · exact frameOk_refl _ _

/-- A non-return right operand passes `returnCheck` unchanged. -/
theorem returnCheck_ok (st : AStore) (k r : Nat) (rv : AVar)
    (h : rv.isReturn = false) : returnCheck st k r rv = .ok st := by
  unfold returnCheck
  rw [if_neg (by simp [h])]

/-- The range setters frame. -/
theorem frame_trySetRangeMin (ok : Bool) (st : AStore) (k : Nat) (e : Elem) :
    frameOk st (trySetRangeMin ok st k e) k := by
  unfold trySetRangeMin
  split
  · exact frame_modifyVar st k _ (fun _ => rfl)
  · exact frameOk_refl _ _

theorem frame_trySetRangeMax (ok : Bool) (st : AStore) (k : Nat) (e : Elem) :
    frameOk st (trySetRangeMax ok st k e) k := by
  unfold trySetRangeMax
  split
  · exact frame_modifyVar st k _ (fun _ => rfl)
  · exact frameOk_refl _ _

theorem frame_trySetRangeExclusions (ok : Bool) (st : AStore) (k : Nat) (xs : List Nat) :
    frameOk st (trySetRangeExclusions ok st k xs) k := by
  unfold trySetRangeExclusions
  split
  · exact frame_modifyVar st k _ (fun _ => rfl)
  · exact frameOk_refl _ _

/-- When the declared types still agree, `setBounds` succeeds and frames. -/
theorem setBounds_ok (fl : AssignFlags) (st : AStore) (k lhsId rhsId : Nat)
    (lb ub : Elem) (hty : tyEq st lhsId rhsId = true) :
    setBounds fl st k lhsId rhsId lb ub
      = .ok (trySetRangeMax fl.setMaxOk (trySetRangeMin fl.setMinOk st k lb) k ub) := by
  unfold setBounds
  rw [if_pos hty]

/-- `copyExclusions` frames. -/
theorem frame_copyExclusions (fl : AssignFlags) (st : AStore) (k r : Nat) :
    frameOk st (copyExclusions fl st k r) k := by
  unfold copyExclusions
  rcases refRangeExcl st r with _ | xs
  · exact frameOk_refl _ _
  · exact frame_trySetRangeExclusions _ _ _ _

/-- Complete behaviour of the scalar assignment path on latest-version
operands of equal declared type: the left variable is advanced to the
fresh node `st.vars.length` (whatever the self-reference test decides),
the right operand is force-advanced to the fresh node
`st.vars.length + 1`, and the new left version is returned — for every
outcome of the fallible Range-setting operations. -/
theorem assignScalar_spec (fl : AssignFlags) (st : AStore) (lhsId rhsId : Nat)
    (lv rv : AVar)
    (h1 : getVar st lhsId = some lv) (h2 : getVar st rhsId = some rv)
    (h3 : lv.next = none) (h4 : rv.next = none) (h5 : lv.tyId = rv.tyId)
    (h6 : rv.isReturn = false) (h7 : lhsId ≠ rhsId) :
    (assignScalar fl st lhsId rhsId lv rv).2 = .ok (.single st.vars.length) ∧
    (assignScalar fl st lhsId rhsId lv rv).1.vars.length = st.vars.length + 2 ∧
    getVar (assignScalar fl st lhsId rhsId lv rv).1 lhsId
      = some { lv with next := some st.vars.length } ∧
    getVar (assignScalar fl st lhsId rhsId lv rv).1 rhsId
      = some { rv with next := some (st.vars.length + 1) } ∧
    (getVar (assignScalar fl st lhsId rhsId lv rv).1 st.vars.length).map AVar.name
      = some lv.name := by
  have hlhs_lt : lhsId < st.vars.length := getVar_lt h1
  have hrhs_lt : rhsId < st.vars.length := getVar_lt h2
  have hlatR : latestVersion st rhsId = rhsId := latestVersion_none st rhsId rv h2 h4
  have hlatL : latestVersion st lhsId = lhsId := latestVersion_none st lhsId lv h1 h3
  have hcast : castFrom st rhsId lhsId = st := by
    unfold castFrom
    simp only [h1, hlatR, h2]
    rw [if_pos h5.symm]
  set lv' : AVar := { lv with next := some st.vars.length } with hlv'
  set nv : AVar := { lv with rmin := none, rmax := none, excl := [], next := none } with hnv
  set stA : AStore := { st with vars := (st.vars.set lhsId lv') ++ [nv] } with hstA
  have hadv : advanceVar st lhsId = (stA, st.vars.length) := by
    unfold advanceVar
    rw [h1]
  have hsetlen : (st.vars.set lhsId lv').length = st.vars.length := by simp
  have hA_len : stA.vars.length = st.vars.length + 1 := by simp [hstA]
  have hA_l : getVar stA lhsId = some lv' := by
    show ((st.vars.set lhsId lv') ++ [nv])[lhsId]? = some lv'
    rw [List.getElem?_append, if_pos (by omega)]
    exact getElem?_set_self' _ _ _ hlhs_lt
  have hA_r : getVar stA rhsId = some rv := by
    show ((st.vars.set lhsId lv') ++ [nv])[rhsId]? = some rv
    rw [List.getElem?_append, if_pos (by omega)]
    rw [getElem?_set_ne' _ _ _ _ h7]
    exact h2
  have hA_new : getVar stA st.vars.length = some nv := by
    show ((st.vars.set lhsId lv') ++ [nv])[st.vars.length]? = some nv
    have hc := List.getElem?_concat_length (st.vars.set lhsId lv') nv
    rw [hsetlen] at hc
    exact hc
  set st5 : AStore :=
    addStorageEdge (setDepOn (setTmpOf stA st.vars.length rv) st.vars.length rhsId)
      st.vars.length rhsId lv with hst5
  have hframe5 : frameOk stA st5 st.vars.length :=
    frameOk_trans (frameOk_trans (frame_setTmpOf _ _ _) (frame_setDepOn _ _ _))
      (frame_addStorageEdge _ _ _ _)
  have h5_l : getVar st5 lhsId = some lv' := by
    rw [hframe5.2.1 lhsId (by omega)]; exact hA_l
  have h5_r : getVar st5 rhsId = some rv := by
    rw [hframe5.2.1 rhsId (by omega)]; exact hA_r
  have hty : tyEq st5 lhsId rhsId = true := by
    unfold tyEq
    rw [h5_l, h5_r]
    simp [h5]
  set st7 : AStore :=
    trySetRangeMax fl.setMaxOk
      (trySetRangeMin fl.setMinOk st5 st.vars.length (.eref rhsId))
      st.vars.length (.eref rhsId) with hst7
  have hbounds : setBounds fl st5 st.vars.length lhsId rhsId (.eref rhsId) (.eref rhsId)
      = .ok st7 :=
    setBounds_ok fl st5 st.vars.length lhsId rhsId (.eref rhsId) (.eref rhsId) hty
  have hframe7 : frameOk st5 st7 st.vars.length :=
    frameOk_trans (frame_trySetRangeMin _ _ _ _) (frame_trySetRangeMax _ _ _ _)
  set st8 : AStore := copyExclusions fl st7 st.vars.length rhsId with hst8
  have hframe8 : frameOk st5 st8 st.vars.length :=
    frameOk_trans hframe7 (frame_copyExclusions _ _ _ _)
  have hframeT : frameOk stA st8 st.vars.length := frameOk_trans hframe5 hframe8
  have h8_len : st8.vars.length = st.vars.length + 1 := by
    rw [← hframeT.1]; exact hA_len
  have h8_l : getVar st8 lhsId = some lv' := by
    rw [hframeT.2.1 lhsId (by omega)]; exact hA_l
  have h8_r : getVar st8 rhsId = some rv := by
    rw [hframeT.2.1 rhsId (by omega)]; exact hA_r
  have h8_name : (getVar st8 st.vars.length).map AVar.name = some lv.name := by
    rw [hframeT.2.2, hA_new]
    rfl
  have hlat8 : latestVersion st8 rhsId = rhsId := latestVersion_none st8 rhsId rv h8_r h4
  set rv' : AVar := { rv with next := some st8.vars.length } with hrv'
  set nv2 : AVar := { rv with rmin := none, rmax := none, excl := [], next := none } with hnv2
  set stF : AStore := { st8 with vars := (st8.vars.set rhsId rv') ++ [nv2] } with hstF
  have hadv2 : advanceVar st8 rhsId = (stF, st8.vars.length) := by
    unfold advanceVar
    rw [h8_r]
  have hmain : assignScalar fl st lhsId rhsId lv rv = (stF, .ok (.single st.vars.length)) := by
    unfold assignScalar
    have hif : (if needsForcible st lhsId rhsId = true then
          advanceVarInCtxForcible st lhsId true
        else advanceVarInCtx st lhsId) = (stA, st.vars.length) := by
      unfold advanceVarInCtxForcible advanceVarInCtx
      split <;> exact hadv
    simp only [hcast, hlatR, hlatL, hif]
    rw [← hst5]
    rw [returnCheck_ok st5 st.vars.length rhsId rv h6]
    simp only [hbounds]
    rw [← hst8]
    simp only [hlat8]
    unfold advanceVarInCtxForcible
    rw [hadv2]
  rw [hmain]
  have hrhs_lt8 : rhsId < st8.vars.length := by omega
  refine ⟨rfl, ?_, ?_, ?_, ?_⟩
  · show ((st8.vars.set rhsId rv') ++ [nv2]).length = st.vars.length + 2
    simp [h8_len]
  · show ((st8.vars.set rhsId rv') ++ [nv2])[lhsId]? = some lv'
    rw [List.getElem?_append, if_pos (by simp; omega)]
    rw [getElem?_set_ne' _ _ _ _ (fun he => h7 he.symm)]
    exact h8_l
  · show ((st8.vars.set rhsId rv') ++ [nv2])[rhsId]?
        = some { rv with next := some (st.vars.length + 1) }
    rw [List.getElem?_append, if_pos (by simp; omega)]
    rw [getElem?_set_self' _ _ _ hrhs_lt8]
    rw [hrv', h8_len]
  · show (((st8.vars.set rhsId rv') ++ [nv2])[st.vars.length]?).map AVar.name = some lv.name
    rw [List.getElem?_append, if_pos (by simp; omega)]
    rw [getElem?_set_ne' _ _ _ _ (by omega)]
    exact h8_name

/-- `assign` dispatches to the scalar path when the operands are not both
struct-typed. -/
theorem assign_scalar_eq (fl : AssignFlags) (fuel : Nat) (st : AStore)
    (lhsId rhsId : Nat) (lv rv : AVar)
    (h1 : getVar st lhsId = some lv) (h2 : getVar st rhsId = some rv)
    (hns : (lv.isStructV && rv.isStructV) = false) :
    assign fl (fuel + 1) st lhsId rhsId = assignScalar fl st lhsId rhsId lv rv := by
  unfold assign
  simp only [h1, h2, hns]
  rfl

/-- C9: for every scalar assignment that reaches the Range-setting steps,
any combination of failures of the fallible Range-setting operations (min,
max, exclusions) neither unwinds nor aborts: the right operand is still
force-advanced and `assign` still returns the new left version; in the
`x = x + 1` scenario with all three setters failing the result and the
version structure are unchanged, only the attached bounds are missing. -/
theorem claim9_range_failures_not_fatal :
    (∀ (fl : AssignFlags) (fuel : Nat) (st : AStore) (lhsId rhsId : Nat) (lv rv : AVar),
       getVar st lhsId = some lv → getVar st rhsId = some rv →
       (lv.isStructV && rv.isStructV) = false →
       lv.next = none → rv.next = none → lv.tyId = rv.tyId →
       rv.isReturn = false → lhsId ≠ rhsId →
       (assign fl (fuel + 1) st lhsId rhsId).2 = .ok (.single st.vars.length) ∧
       (assign fl (fuel + 1) st lhsId rhsId).1.vars.length = st.vars.length + 2 ∧
       getVar (assign fl (fuel + 1) st lhsId rhsId).1 rhsId
         = some { rv with next := some (st.vars.length + 1) }) ∧
    (assign ⟨false, false, false⟩ 1 xAsgStore 0 1).2 = .ok (.single 2) ∧
    (assign ⟨false, false, false⟩ 1 xAsgStore 0 1).1.vars.length = 4 ∧
    (getVar (assign ⟨false, false, false⟩ 1 xAsgStore 0 1).1 1).map AVar.next
      = some (some 3) ∧
    ((assign ⟨false, false, false⟩ 1 xAsgStore 0 1).1.vars[2]?).map AVar.rmin
      = some none := by
  refine ⟨?_, by decide, by decide, by decide, by decide⟩
  intro fl fuel st lhsId rhsId lv rv h1 h2 hns h3 h4 h5 h6 h7
  rw [assign_scalar_eq fl fuel st lhsId rhsId lv rv h1 h2 hns]
  have h := assignScalar_spec fl st lhsId rhsId lv rv h1 h2 h3 h4 h5 h6 h7
  exact ⟨h.1, h.2.1, h.2.2.2.1⟩

/-- Witness for C9 with all three Range-setting operations failing. -/
theorem claim9_range_failures_not_fatal_witness :
    (assign ⟨false, false, false⟩ 1 xAsgStore 0 1).2 = .ok (.single 2) ∧
    (assign ⟨false, false, false⟩ 1 xAsgStore 0 1).1.vars.length = 4 ∧
    getVar (assign ⟨false, false, false⟩ 1 xAsgStore 0 1).1 1
      = some { xVar1 with next := some 3 } := by
  have h := claim9_range_failures_not_fatal.1 ⟨false, false, false⟩ 0 xAsgStore 0 1
    xVar0 xVar1 (by decide) (by decide) (by decide) (by decide) (by decide)
    (by decide) (by decide) (by decide)
  exact ⟨h.1, h.2.1, h.2.2⟩

/-- C1: when either provisional bound (the right operand's latest version)
transitively depends on the pre-assignment left variable — `depends_on`
from an empty visited set — `assign` advances the left variable so that a
version that did not exist before the assignment is guaranteed (the new
node id is fresh) and links the superseded version to it; in the
`x = x + 1` scenario the self-reference test is true before the advance,
and the new version's Range (both bounds reference the `x + 1` temporary)
contains no structural reference to the pre-assignment version of `x` and
does not depend on the new version itself. -/
theorem claim1_forcible_self_reference :
    (∀ (fl : AssignFlags) (fuel : Nat) (st : AStore) (lhsId rhsId : Nat) (lv rv : AVar),
       getVar st lhsId = some lv → getVar st rhsId = some rv →
       (lv.isStructV && rv.isStructV) = false →
       lv.next = none → rv.next = none → lv.tyId = rv.tyId →
       rv.isReturn = false → lhsId ≠ rhsId →
       needsForcible st lhsId rhsId = true →
       getVar st st.vars.length = none ∧
       (getVar (assign fl (fuel + 1) st lhsId rhsId).1 st.vars.length).map AVar.name
         = some lv.name ∧
       getVar (assign fl (fuel + 1) st lhsId rhsId).1 lhsId
         = some { lv with next := some st.vars.length } ∧
       (assign fl (fuel + 1) st lhsId rhsId).2 = .ok (.single st.vars.length)) ∧
    needsForcible xAsgStore 0 1 = true ∧
    (assign allOk 1 xAsgStore 0 1).2 = .ok (.single 2) ∧
    ((assign allOk 1 xAsgStore 0 1).1.vars[2]?).map AVar.rmin = some (some (.eref 1)) ∧
    ((assign allOk 1 xAsgStore 0 1).1.vars[2]?).map AVar.rmax = some (some (.eref 1)) ∧
    elemMentions (.eref 1) 0 = false ∧
    dependsOn (depFuel (assign allOk 1 xAsgStore 0 1).1)
      (assign allOk 1 xAsgStore 0 1).1 (.eref 1) 2 [] = false ∧
    dependsOn (depFuel xAsgStore) xAsgStore (.eref 1) 0 [] = true ∧
    (getVar (assign allOk 1 xAsgStore 0 1).1 0).map AVar.next = some (some 2) := by
  refine ⟨?_, by decide, by decide, by decide, by decide, by decide, by decide,
    by decide, by decide⟩
  intro fl fuel st lhsId rhsId lv rv h1 h2 hns h3 h4 h5 h6 h7 _
  rw [assign_scalar_eq fl fuel st lhsId rhsId lv rv h1 h2 hns]
  have h := assignScalar_spec fl st lhsId rhsId lv rv h1 h2 h3 h4 h5 h6 h7
  exact ⟨getVar_length_none st, h.2.2.2.2, h.2.2.1, h.1⟩

/-- Witness for C1 on the `x = x + 1` store. -/
theorem claim1_forcible_self_reference_witness :
    getVar xAsgStore 2 = none ∧
    (getVar (assign allOk 1 xAsgStore 0 1).1 2).map AVar.name = some "x" ∧
    getVar (assign allOk 1 xAsgStore 0 1).1 0 = some { xVar0 with next := some 2 } := by
  have h := claim1_forcible_self_reference.1 allOk 0 xAsgStore 0 1 xVar0 xVar1
    (by decide) (by decide) (by decide) (by decide) (by decide) (by decide)
    (by decide) (by decide) (by decide)
  exact ⟨h.1, h.2.1, h.2.2.1⟩

theorem stepPres_refl (st : AStore) : stepPres st st :=
  ⟨⟨le_refl _, fun _ v h => ⟨v, h, rfl, rfl, rfl⟩⟩, id, id⟩

theorem stepPres_trans {a b c : AStore} (h1 : stepPres a b) (h2 : stepPres b c) :
    stepPres a c := by
  refine ⟨⟨h1.1.1.trans h2.1.1, ?_⟩, fun ht => h2.2.1 (h1.2.1 ht),
    fun hr => h2.2.2 (h1.2.2 hr)⟩
  intro i v hv
  obtain ⟨v', hv', hn', hs', hr'⟩ := h1.1.2 i v hv
  obtain ⟨v'', hv'', hn'', hs'', hr''⟩ := h2.1.2 i v' hv'
  exact ⟨v'', hv'', hn''.trans hn', hs''.trans hs', hr''.trans hr'⟩

/-- Updating an existing node with one that keeps name, structness, return
flag and type preserves everything. -/
theorem stepPres_setVar (st : AStore) (i : Nat) (v v' : AVar)
    (h : getVar st i = some v)
    (hn : v'.name = v.name) (hs : v'.isStructV = v.isStructV)
    (hr : v'.isReturn = v.isReturn) (htt : v'.tyId = v.tyId) :
    stepPres st (setVar st i v') := by
  have hi : i < st.vars.length := getVar_lt h
  have hget : ∀ j, getVar (setVar st i v') j
      = if i = j then some v' else getVar st j := by
    intro j
    by_cases hij : i = j
    · subst hij
      rw [if_pos rfl]
      show (st.vars.set i v')[i]? = some v'
      exact getElem?_set_self' _ _ _ hi
    · rw [if_neg hij]
      show (st.vars.set i v')[j]? = getVar st j
      rw [getElem?_set_ne' _ _ _ _ hij]
      rfl
  refine ⟨⟨by simp [setVar], ?_⟩, ?_, ?_⟩
  · intro j w hw
    by_cases hij : i = j
    · subst hij
      rw [h] at hw
      cases hw
      exact ⟨v', by rw [hget i, if_pos rfl], hn, hs, hr⟩
    · exact ⟨w, by rw [hget j, if_neg hij]; exact hw, rfl, rfl, rfl⟩
  · intro ht j w hw
    rw [hget j] at hw
    by_cases hij : i = j
    · rw [if_pos hij] at hw
      cases hw
      rw [htt]
      exact ht i v h
    · rw [if_neg hij] at hw
      exact ht j w hw
  · intro hnr j w hw
    rw [hget j] at hw
    by_cases hij : i = j
    · rw [if_pos hij] at hw
      cases hw
      rw [hr]
      exact hnr i v h
    · rw [if_neg hij] at hw
      exact hnr j w hw

/-- `modifyVar` with a field-preserving update preserves everything. -/
theorem stepPres_modifyVar (st : AStore) (i : Nat) (f : AVar → AVar)
    (hf : ∀ v, (f v).name = v.name ∧ (f v).isStructV = v.isStructV ∧
      (f v).isReturn = v.isReturn ∧ (f v).tyId = v.tyId) :
    stepPres st (modifyVar st i f) := by
  unfold modifyVar
  rcases h : getVar st i with _ | v
  · exact stepPres_refl st
  · exact stepPres_setVar st i v (f v) h (hf v).1 (hf v).2.1 (hf v).2.2.1 (hf v).2.2.2

/-- Changing only edges preserves everything. -/
theorem stepPres_edges (st : AStore) (es : List AEdge) :
    stepPres st { st with edges := es } :=
  ⟨⟨le_refl _, fun _ v h => ⟨v, h, rfl, rfl, rfl⟩⟩, fun ht => ht, fun hr => hr⟩

/-- `advanceVar` preserves everything: the superseded version only gains a
`next` link and the new version copies the variable. -/
theorem stepPres_advanceVar (st : AStore) (i : Nat) :
    stepPres st (advanceVar st i).1 := by
  unfold advanceVar
  rcases h : getVar st i with _ | v
  · exact stepPres_refl st
  · have hi : i < st.vars.length := getVar_lt h
    have hget : ∀ j, getVar { st with
          vars := (st.vars.set i { v with next := some st.vars.length })
            ++ [{ v with rmin := none, rmax := none, excl := [], next := none }] } j
        = if j = i then some { v with next := some st.vars.length }
          else if j = st.vars.length
          then some { v with rmin := none, rmax := none, excl := [], next := none }
          else getVar st j := by
      intro j
      by_cases hj1 : j = i
      · subst hj1
        rw [if_pos rfl]
        show ((st.vars.set j _) ++ [_])[j]? = _
        rw [List.getElem?_append, if_pos (by rw [List.length_set]; exact hi)]
        exact getElem?_set_self' _ _ _ hi
      · rw [if_neg hj1]
        by_cases hj2 : j = st.vars.length
        · subst hj2
          rw [if_pos rfl]
          show ((st.vars.set i _) ++ [_])[st.vars.length]? = _
          have hc := List.getElem?_concat_length
            (st.vars.set i { v with next := some st.vars.length })
            ({ v with rmin := none, rmax := none, excl := [], next := none })
          rw [List.length_set] at hc
          exact hc
        · rw [if_neg hj2]
          show ((st.vars.set i _) ++ [_])[j]? = getVar st j
          by_cases hj3 : j < st.vars.length
          · rw [List.getElem?_append, if_pos (by rw [List.length_set]; exact hj3)]
            rw [getElem?_set_ne' _ _ _ _ (fun he => hj1 he.symm)]
            rfl
          · have he1 : ((st.vars.set i { v with next := some st.vars.length })
                ++ [{ v with rmin := none, rmax := none, excl := [], next := none }])[j]?
                = none :=
              List.getElem?_eq_none (by simp [List.length_set]; omega)
            have he2 : getVar st j = none := by
              rw [getVar]
              exact List.getElem?_eq_none (by omega)
            rw [he1, he2]
    refine ⟨⟨by simp, ?_⟩, ?_, ?_⟩
    · intro j w hw
      by_cases hj1 : j = i
      · subst hj1
        rw [h] at hw
        cases hw
        exact ⟨{ v with next := some st.vars.length },
          by rw [hget j, if_pos rfl], rfl, rfl, rfl⟩
      · refine ⟨w, ?_, rfl, rfl, rfl⟩
        rw [hget j, if_neg hj1, if_neg (by have := getVar_lt hw; omega)]
        exact hw
    · intro ht j w hw
      rw [hget j] at hw
      by_cases hj1 : j = i
      · rw [if_pos hj1] at hw
        cases hw
        exact ht i v h
      · rw [if_neg hj1] at hw
        by_cases hj2 : j = st.vars.length
        · rw [if_pos hj2] at hw
          cases hw
          exact ht i v h
        · rw [if_neg hj2] at hw
          exact ht j w hw
    · intro hr j w hw
      rw [hget j] at hw
      by_cases hj1 : j = i
      · rw [if_pos hj1] at hw
        cases hw
        exact hr i v h
      · rw [if_neg hj1] at hw
        by_cases hj2 : j = st.vars.length
        · rw [if_pos hj2] at hw
          cases hw
          exact hr i v h
        · rw [if_neg hj2] at hw
          exact hr j w hw

/-- Under the uniform-type invariant, the domain cast is the identity. -/
theorem castFrom_eq (st : AStore) (r l : Nat) (ht : allTy0 st) :
    castFrom st r l = st := by
  unfold castFrom
  rcases h1 : getVar st l with _ | lv
  · rfl
  · rcases h2 : getVar st (latestVersion st r) with _ | v
    · rfl
    · simp [ht _ _ h1, ht _ _ h2]

theorem stepPres_setTmpOf (st : AStore) (k : Nat) (rv : AVar) :
    stepPres st (setTmpOf st k rv) :=
  stepPres_modifyVar st k _ (fun _ => ⟨rfl, rfl, rfl, rfl⟩)

theorem stepPres_setDepOn (st : AStore) (k r : Nat) :
    stepPres st (setDepOn st k r) :=
  stepPres_modifyVar st k _
    (fun v => by rcases v.depOn with _ | l <;> exact ⟨rfl, rfl, rfl, rfl⟩)

theorem stepPres_addStorageEdge (st : AStore) (k r : Nat) (lv : AVar) :
    stepPres st (addStorageEdge st k r lv) := by
  unfold addStorageEdge
  split
  · exact stepPres_edges _ _
  · exact stepPres_refl _

theorem stepPres_trySetRangeMin (ok : Bool) (st : AStore) (k : Nat) (e : Elem) :
    stepPres st (trySetRangeMin ok st k e) := by
  unfold trySetRangeMin
  split
  · exact stepPres_modifyVar st k _ (fun _ => ⟨rfl, rfl, rfl, rfl⟩)
  · exact stepPres_refl _

theorem stepPres_trySetRangeMax (ok : Bool) (st : AStore) (k : Nat) (e : Elem) :
    stepPres st (trySetRangeMax ok st k e) := by
  unfold trySetRangeMax
  split
  · exact stepPres_modifyVar st k _ (fun _ => ⟨rfl, rfl, rfl, rfl⟩)
  · exact stepPres_refl _

theorem stepPres_trySetRangeExclusions (ok : Bool) (st : AStore) (k : Nat)
    (xs : List Nat) : stepPres st (trySetRangeExclusions ok st k xs) := by
  unfold trySetRangeExclusions
  split
  · exact stepPres_modifyVar st k _ (fun _ => ⟨rfl, rfl, rfl, rfl⟩)
  · exact stepPres_refl _

theorem stepPres_copyExclusions (fl : AssignFlags) (st : AStore) (k r : Nat) :
    stepPres st (copyExclusions fl st k r) := by
  unfold copyExclusions
  rcases refRangeExcl st r with _ | xs
  · exact stepPres_refl _
  · exact stepPres_trySetRangeExclusions _ _ _ _

/-- On any well-typed store without return-valued nodes, the scalar
assignment path always succeeds and preserves the store's shape and
invariants. -/
theorem assignScalar_ok (fl : AssignFlags) (st : AStore) (lhsId rhsId : Nat)
    (lv rv : AVar)
    (h1 : getVar st lhsId = some lv) (h2 : getVar st rhsId = some rv)
    (ht : allTy0 st) (hr : allNotReturn st) :
    (∃ n, (assignScalar fl st lhsId rhsId lv rv).2 = .ok (.single n)) ∧
    stepPres st (assignScalar fl st lhsId rhsId lv rv).1 := by
  obtain ⟨stA, n, hadv⟩ : ∃ stA n,
      advanceVar st (latestVersion st lhsId) = (stA, n) := ⟨_, _, rfl⟩
  have hpA : stepPres st stA := by
    have := stepPres_advanceVar st (latestVersion st lhsId)
    rwa [hadv] at this
  have hif : (if needsForcible st lhsId rhsId = true then
        advanceVarInCtxForcible st (latestVersion st lhsId) true
      else advanceVarInCtx st (latestVersion st lhsId)) = (stA, n) := by
    unfold advanceVarInCtxForcible advanceVarInCtx
    split <;> exact hadv
  set st5 : AStore := addStorageEdge (setDepOn (setTmpOf stA n rv) n rhsId) n rhsId lv
    with hst5
  have hp5 : stepPres st st5 :=
    stepPres_trans hpA (stepPres_trans (stepPres_setTmpOf _ _ _)
      (stepPres_trans (stepPres_setDepOn _ _ _) (stepPres_addStorageEdge _ _ _ _)))
  have hret5 : returnCheck st5 n rhsId rv = .ok st5 :=
    returnCheck_ok _ _ _ _ (hr rhsId rv h2)
  have hty5 : tyEq st5 lhsId rhsId = true := by
    obtain ⟨v1, hv1, _, _, _⟩ := hp5.1.2 lhsId lv h1
    obtain ⟨v2, hv2, _, _, _⟩ := hp5.1.2 rhsId rv h2
    have ht5 : allTy0 st5 := hp5.2.1 ht
    unfold tyEq
    rw [hv1, hv2]
    simp [ht5 _ _ hv1, ht5 _ _ hv2]
  set st7 : AStore := trySetRangeMax fl.setMaxOk
      (trySetRangeMin fl.setMinOk st5 n (.eref (latestVersion st rhsId)))
      n (.eref (latestVersion st rhsId)) with hst7
  have hbounds : setBounds fl st5 n lhsId rhsId
      (.eref (latestVersion st rhsId)) (.eref (latestVersion st rhsId)) = .ok st7 :=
    setBounds_ok fl st5 n lhsId rhsId _ _ hty5
  have hp7 : stepPres st5 st7 :=
    stepPres_trans (stepPres_trySetRangeMin _ _ _ _) (stepPres_trySetRangeMax _ _ _ _)
  set st8 : AStore := copyExclusions fl st7 n rhsId with hst8
  have hp8 : stepPres st st8 :=
    stepPres_trans hp5 (stepPres_trans hp7 (stepPres_copyExclusions _ _ _ _))
  have heq : assignScalar fl st lhsId rhsId lv rv
      = ((advanceVar st8 (latestVersion st8 rhsId)).1, .ok (.single n)) := by
    unfold assignScalar
    simp only [castFrom_eq st rhsId lhsId ht, hif]
    rw [← hst5, hret5]
    simp only [hbounds]
    rw [← hst8]
    unfold advanceVarInCtxForcible
    rfl
  rw [heq]
  refine ⟨⟨n, rfl⟩, ?_⟩
  exact stepPres_trans hp8 (stepPres_advanceVar _ _)

/-- `split('.')` always yields at least one segment. -/
theorem splitDotCore_ne_nil : ∀ (cs acc : List Char), splitDotCore cs acc ≠ [] := by
  intro cs
  induction cs with
  | nil => intro acc; simp [splitDotCore]
  | cons c cs ih =>
    intro acc
    unfold splitDotCore
    split
    · simp
    · exact ih (c :: acc)

/-- Every name has a trailing segment (the code's `else` branch for a
missing one is dead). -/
theorem trailingName_isSome (s : String) : (trailingName s).isSome := by
  unfold trailingName
  rw [List.getLast?_isSome]
  exact splitDotCore_ne_nil _ _

/-- The global invariants follow from a per-element check of the store. -/
theorem allTy0_of_forall (st : AStore) (h : ∀ v ∈ st.vars, v.tyId = 0) :
    allTy0 st := fun _ v hv => h v (List.getElem?_mem hv)

theorem allNotReturn_of_forall (st : AStore) (h : ∀ v ∈ st.vars, v.isReturn = false) :
    allNotReturn st := fun _ v hv => h v (List.getElem?_mem hv)

/-- When no right field's trailing name matches, the search walks the
whole list without mutating anything and reports failure. -/
theorem findAndAssign_nomatch : ∀ (rfs : List Nat) (fuel : Nat) (fl : AssignFlags)
    (st : AStore) (lf : Nat) (lname : List Char),
    rfs.length + 1 ≤ fuel →
    (∀ rf ∈ rfs, ∃ rfv, getVar st rf = some rfv ∧
      trailingName rfv.name ≠ some lname) →
    findAndAssign fl fuel st lf lname rfs = (st, .ok false) := by
  intro rfs
  induction rfs with
  | nil =>
    intro fuel fl st lf lname hfuel _
    rcases fuel with _ | k
    · omega
    · rfl
  | cons rf rfs ih =>
    intro fuel fl st lf lname hfuel hall
    rcases fuel with _ | k
    · omega
    · obtain ⟨rfv, hrfv, hne⟩ := hall rf (by simp)
      obtain ⟨rname, hrname⟩ := Option.isSome_iff_exists.mp (trailingName_isSome rfv.name)
      have hnn : lname ≠ rname := by
        intro he
        exact hne (by rw [hrname, he])
      unfold findAndAssign
      simp only [hrfv, hrname]
      rw [if_neg hnn]
      exact ih k fl st lf lname (by simpa using hfuel) (fun q hq => hall q (by simp [hq]))

/-- The search over right fields never errors on a well-formed store: it
either assigns the first trailing-name match or reports no match, and it
preserves the store invariants. -/
theorem findAndAssign_ok : ∀ (rfs : List Nat) (fuel : Nat) (fl : AssignFlags)
    (st : AStore) (lf : Nat) (lname : List Char),
    rfs.length + 1 ≤ fuel →
    allTy0 st → allNotReturn st →
    (∃ lfv, getVar st lf = some lfv ∧ lfv.isStructV = false) →
    (∀ f ∈ rfs, ∃ v, getVar st f = some v ∧ v.isStructV = false) →
    ∃ st' b, findAndAssign fl fuel st lf lname rfs = (st', .ok b) ∧ stepPres st st' := by
  intro rfs
  induction rfs with
  | nil =>
    intro fuel fl st lf lname hfuel _ _ _ _
    rcases fuel with _ | k
    · omega
    · exact ⟨st, false, rfl, stepPres_refl st⟩
  | cons rf rfs ih =>
    intro fuel fl st lf lname hfuel ht hr hlf hall
    rcases fuel with _ | k
    · omega
    · obtain ⟨rfv, hrfv, hrsc⟩ := hall rf (by simp)
      obtain ⟨lfv, hlfv, hlsc⟩ := hlf
      obtain ⟨rname, hrname⟩ := Option.isSome_iff_exists.mp (trailingName_isSome rfv.name)
      by_cases hm : lname = rname
      · rcases k with _ | k'
        · simp at hfuel
        · have hns : (lfv.isStructV && rfv.isStructV) = false := by
            rw [hlsc]; rfl
          have heq := assign_scalar_eq fl k' st lf rf lfv rfv hlfv hrfv hns
          obtain ⟨⟨n, hok⟩, hpres⟩ :=
            assignScalar_ok fl st lf rf lfv rfv hlfv hrfv ht hr
          have hpair : assignScalar fl st lf rf lfv rfv
              = ((assignScalar fl st lf rf lfv rfv).1, .ok (.single n)) := by
            rw [← hok]
          refine ⟨(assignScalar fl st lf rf lfv rfv).1, true, ?_, hpres⟩
          unfold findAndAssign
          simp only [hrfv, hrname]
          rw [if_pos hm, heq, hpair]
      · have hres := ih k fl st lf lname (by simpa using hfuel) ht hr
          ⟨lfv, hlfv, hlsc⟩ (fun q hq => hall q (by simp [hq]))
        obtain ⟨st', b, hfa, hpres⟩ := hres
        refine ⟨st', b, ?_, hpres⟩
        unfold findAndAssign
        simp only [hrfv, hrname]
        rw [if_neg hm]
        exact hfa

/-- The struct-field loop fails with the "Struct types mismatched" parse
error whenever some left field has no right field with the same trailing
name, on a well-formed store with enough recursion budget. -/
theorem assignStructFields_mismatch : ∀ (lfs : List Nat) (fuel : Nat)
    (fl : AssignFlags) (st : AStore) (rfs : List Nat),
    lfs.length + rfs.length + 2 ≤ fuel →
    allTy0 st → allNotReturn st →
    (∀ f ∈ lfs, ∃ v, getVar st f = some v ∧ v.isStructV = false) →
    (∀ f ∈ rfs, ∃ v, getVar st f = some v ∧ v.isStructV = false) →
    (∃ lf ∈ lfs, ∃ lfv, getVar st lf = some lfv ∧
       ∀ rf ∈ rfs, ∀ rfv, getVar st rf = some rfv →
         trailingName rfv.name ≠ trailingName lfv.name) →
    (assignStructFields fl fuel st lfs rfs).2 = .error "Struct types mismatched" := by
  intro lfs
  induction lfs with
  | nil =>
    intro fuel fl st rfs _ _ _ _ _ hbad
    obtain ⟨lf, hlf, _⟩ := hbad
    simp at hlf
  | cons lf0 rest ih =>
    intro fuel fl st rfs hfuel ht hr hlfs hrfs hbad
    rcases fuel with _ | k
    · omega
    · obtain ⟨l0v, hl0v, hl0sc⟩ := hlfs lf0 (by simp)
      obtain ⟨lname0, hlname0⟩ := Option.isSome_iff_exists.mp (trailingName_isSome l0v.name)
      by_cases hm : ∀ rf ∈ rfs, ∀ rfv, getVar st rf = some rfv →
          trailingName rfv.name ≠ some lname0
      · -- the head field itself finds no match: immediate mismatch error
        have hno := findAndAssign_nomatch rfs k fl st lf0 lname0
          (by omega)
          (fun rf hrf => by
            obtain ⟨rfv, hrfv, _⟩ := hrfs rf hrf
            exact ⟨rfv, hrfv, hm rf hrf rfv hrfv⟩)
        unfold assignStructFields
        simp only [hl0v, hlname0, hno]
      · -- the head field matches; the recursion carries the unmatched field
        obtain ⟨st', b, hfa, hpres⟩ := findAndAssign_ok rfs k fl st lf0 lname0
          (by omega) ht hr ⟨l0v, hl0v, hl0sc⟩ hrfs
        rcases b with _ | _
        · -- found no match after all: also the mismatch error
          unfold assignStructFields
          simp only [hl0v, hlname0, hfa]
        · -- the loop continues on the rest with the preserved store
          obtain ⟨lf, hlfmem, lfv, hlfv, hun⟩ := hbad
          have hlf_ne : lf ≠ lf0 := by
            intro he
            subst he
            rw [hlfv] at hl0v
            cases hl0v
            push_neg at hm
            obtain ⟨rf, hrf, rfv, hrfv, hmatch⟩ := hm
            exact hun rf hrf rfv hrfv (by rw [hmatch, hlname0])
          have hlfmem' : lf ∈ rest := by
            rcases List.mem_cons.mp hlfmem with h | h
            · exact absurd h hlf_ne
            · exact h
          obtain ⟨lfv', hlfv', hnm', _, _⟩ := hpres.1.2 lf lfv hlfv
          have hbad' : ∃ lf ∈ rest, ∃ w, getVar st' lf = some w ∧
              ∀ rf ∈ rfs, ∀ rfv, getVar st' rf = some rfv →
                trailingName rfv.name ≠ trailingName w.name := by
            refine ⟨lf, hlfmem', lfv', hlfv', ?_⟩
            intro rf hrf rfv' hrfv'
            obtain ⟨rfv, hrfv, _⟩ := hrfs rf hrf
            obtain ⟨rfv'', hrfv'', hrn, _, _⟩ := hpres.1.2 rf rfv hrfv
            rw [hrfv'] at hrfv''
            cases hrfv''
            rw [hrn, hnm']
            exact hun rf hrf rfv hrfv
          have hrec := ih k fl st' rfs (by simp at hfuel ⊢; omega)
            (hpres.2.1 ht) (hpres.2.2 hr)
            (fun f hf => by
              obtain ⟨v, hv, hsc⟩ := hlfs f (by simp [hf])
              obtain ⟨v', hv', _, hsc', _⟩ := hpres.1.2 f v hv
              exact ⟨v', hv', by rw [hsc']; exact hsc⟩)
            (fun f hf => by
              obtain ⟨v, hv, hsc⟩ := hrfs f hf
              obtain ⟨v', hv', _, hsc', _⟩ := hpres.1.2 f v hv
              exact ⟨v', hv', by rw [hsc']; exact hsc⟩)
            hbad'
          unfold assignStructFields
          simp only [hl0v, hlname0, hfa]
          exact hrec

/-- A struct-field loop error propagates out of `assign` unchanged. -/
theorem assign_struct_error (fl : AssignFlags) (fuel : Nat) (st : AStore)
    (lhsId rhsId : Nat) (lv rv : AVar) (msg : String)
    (h1 : getVar st lhsId = some lv) (h2 : getVar st rhsId = some rv)
    (hs1 : lv.isStructV = true) (hs2 : rv.isStructV = true)
    (he : (assignStructFields fl fuel st lv.fields rv.fields).2 = .error msg) :
    (assign fl (fuel + 1) st lhsId rhsId).2 = .error msg := by
  unfold assign
  simp only [h1, h2, hs1, hs2]
  rcases hres : assignStructFields fl fuel st lv.fields rv.fields with ⟨st', r⟩
  rw [hres] at he
  simp only at he
  subst he
  rfl

/-- C2 counterexample: on the struct assignment where only the second left
field (`l.y`) lacks a name-matching right field, `assign` does return the
"Struct types mismatched" parse error — but it is not true that nothing is
mutated: the first field pair was already assigned, so `l.x` (node 2) has
gained a new version (node 5), `r.x` (node 4) was force-advanced (node 6),
and the store has grown from 5 to 7 nodes. -/
theorem claim2_counterexample :
    (assign allOk 10 structStoreBad 0 1).2 = .error "Struct types mismatched" ∧
    (getVar structStoreBad 2).map AVar.next = some none ∧
    (getVar (assign allOk 10 structStoreBad 0 1).1 2).map AVar.next = some (some 5) ∧
    structStoreBad.vars.length = 5 ∧
    (assign allOk 10 structStoreBad 0 1).1.vars.length = 7 :=
  ⟨by decide, by decide, by decide, by decide, by decide⟩

/-- C2 (amended): when both sides are struct-typed and some left field has
no right field with the same trailing name, `assign` returns the
"Struct types mismatched" parse error; left fields matched before the
first unmatched one are already assigned when the error is returned (the
error does not roll their new versions back), and the struct variable
itself receives no new version or Range — on success, too, only the
fields are assigned. -/
theorem claim2_struct_mismatch :
    (∀ (fl : AssignFlags) (fuel : Nat) (st : AStore) (lhsId rhsId : Nat) (lv rv : AVar),
       getVar st lhsId = some lv → getVar st rhsId = some rv →
       lv.isStructV = true → rv.isStructV = true →
       allTy0 st → allNotReturn st →
       (∀ f ∈ lv.fields, ∃ v, getVar st f = some v ∧ v.isStructV = false) →
       (∀ f ∈ rv.fields, ∃ v, getVar st f = some v ∧ v.isStructV = false) →
       (∃ lf ∈ lv.fields, ∃ lfv, getVar st lf = some lfv ∧
          ∀ rf ∈ rv.fields, ∀ rfv, getVar st rf = some rfv →
            trailingName rfv.name ≠ trailingName lfv.name) →
       lv.fields.length + rv.fields.length + 2 ≤ fuel →
       (assign fl (fuel + 1) st lhsId rhsId).2 = .error "Struct types mismatched") ∧
    (assign allOk 10 structStoreBad 0 1).2 = .error "Struct types mismatched" ∧
    (getVar (assign allOk 10 structStoreBad 0 1).1 2).map AVar.next = some (some 5) ∧
    getVar (assign allOk 10 structStoreBad 0 1).1 0 = getVar structStoreBad 0 ∧
    (assign allOk 10 structStoreOk 0 1).2 = .ok (.single 0) ∧
    getVar (assign allOk 10 structStoreOk 0 1).1 0 = getVar structStoreOk 0 ∧
    (getVar (assign allOk 10 structStoreOk 0 1).1 2).map AVar.next = some (some 6) := by
  refine ⟨?_, by decide, by decide, by decide, by decide, by decide, by decide⟩
  intro fl fuel st lhsId rhsId lv rv h1 h2 hs1 hs2 ht hr hlfs hrfs hbad hfuel
  exact assign_struct_error fl fuel st lhsId rhsId lv rv _ h1 h2 hs1 hs2
    (assignStructFields_mismatch lv.fields fuel fl st rv.fields hfuel ht hr hlfs hrfs hbad)

/-- Witness for the amended C2 on the concrete mismatched stores. -/
theorem claim2_struct_mismatch_witness :
    (assign allOk 10 structStoreBad 0 1).2 = .error "Struct types mismatched" := by
  refine claim2_struct_mismatch.1 allOk 9 structStoreBad 0 1
    { baseAVar with name := "l", isStructV := true, fields := [2, 3] }
    { baseAVar with name := "r", isStructV := true, fields := [4] }
    (by decide) (by decide) (by decide) (by decide)
    (allTy0_of_forall _ (by decide)) (allNotReturn_of_forall _ (by decide))
    ?_ ?_ ?_ (by decide)
  · intro f hf
    simp at hf
    rcases hf with h | h
    · subst h
      exact ⟨{ baseAVar with name := "l.x", rmin := some (.econst 0), rmax := some (.econst 1) },
        by decide, by decide⟩
    · subst h
      exact ⟨{ baseAVar with name := "l.y", rmin := some (.econst 0), rmax := some (.econst 1) },
        by decide, by decide⟩
  · intro f hf
    simp at hf
    subst hf
    exact ⟨{ baseAVar with name := "r.x", rmin := some (.econst 7), rmax := some (.econst 7) },
      by decide, by decide⟩
  · refine ⟨3, by decide, { baseAVar with name := "l.y", rmin := some (.econst 0), rmax := some (.econst 1) }, by decide, ?_⟩
    intro rf hrf rfv hrfv
    have h4 : rf = 4 := by simpa using hrf
    subst h4
    have : rfv = { baseAVar with name := "r.x", rmin := some (.econst 7), rmax := some (.econst 7) } := by
      have hx : getVar structStoreBad 4
          = some { baseAVar with name := "r.x", rmin := some (.econst 7), rmax := some (.econst 7) } := by decide
      rw [hx] at hrfv
      cases hrfv
      rfl
    subst this
    decide

end Pyrometer
